import Mathlib

/-!
# Gravitae — verification of the deterministic simulation core

A shallow embedding of the Gravitae rigid-body authoring tool's simulation
core (geometry resampling and decomposition, animation-plan building, the
frame-stepped simulation runner and its helpers), together with theorems
settling the specification claims about it.

Conventions of the embedding:

* JavaScript `number` is embedded as `ℚ`.  All inputs validated by the code
  to be finite non-`NaN` numbers are finite by construction here, so the
  `isFinite`/`isNaN` checks of the source are vacuously true and noted in
  comments where they occur.
* `Math.round` is `jsRound` below (floor of `x + 1/2`, which is how
  JavaScript rounds, including for negative halves).
* JavaScript arrays are `List`s; an in-bounds access `a[i]` is
  `List.getD a i default`.  Whenever a theorem depends on an access, its
  hypotheses put the index in bounds, so the default is never relevant.
* Square-root comparisons of the source (`Math.sqrt d <= m`, normalized dot
  products) are embedded by their exact squared equivalents, noted inline.
* The rigid-body solver (matter-js) is an external capability per the spec;
  its mutators (`Body.setPosition`, `Sleeping.set`, …) are embedded as the
  field updates the simulation core observes.
-/

namespace Gravitae

/-- JavaScript `Math.round`: round half toward positive infinity. -/
def jsRound (q : ℚ) : ℤ := ⌊q + 1 / 2⌋

/-- A 2-D point, as the `{x, y}` pairs of the source. -/
abbrev Point := ℚ × ℚ

/-! ## simplify-js (library used by `geometry.ts`)

The geometry pipeline calls `simplify(points, tolerance, highQuality)` from
the simplify-js library.  Both call sites pass `highQuality = true`.  The
library is embedded in full below. -/

/-- simplify-js `getSqDist`: squared euclidean distance. -/
def getSqDist (p1 p2 : Point) : ℚ :=
  (p1.1 - p2.1) * (p1.1 - p2.1) + (p1.2 - p2.2) * (p1.2 - p2.2)

/-- simplify-js `getSqSegDist`: squared distance from `p` to the segment
`p1`–`p2` (projection clamped to the segment). -/
def getSqSegDist (p p1 p2 : Point) : ℚ :=
  let x := p1.1
  let y := p1.2
  let dx := p2.1 - x
  let dy := p2.2 - y
  let c : Point :=
    if dx ≠ 0 ∨ dy ≠ 0 then
      let t := ((p.1 - x) * dx + (p.2 - y) * dy) / (dx * dx + dy * dy)
      if 1 < t then (p2.1, p2.2)
      else if 0 < t then (x + dx * t, y + dy * t)
      else (x, y)
    else (x, y)
  (p.1 - c.1) * (p.1 - c.1) + (p.2 - c.2) * (p.2 - c.2)

/-- simplify-js `simplifyRadialDist`: keep points farther than the squared
tolerance from the previously kept point; the final point is pushed again
when the last loop iteration did not keep it (the `prevPoint !== point`
reference check of the source). -/
def simplifyRadialDist (points : List Point) (sqTolerance : ℚ) : List Point :=
  match points with
  | [] => []
  | p0 :: rest =>
    let st := rest.foldl
      (fun (st : Point × List Point × Bool) pt =>
        if sqTolerance < getSqDist pt st.1 then (pt, st.2.1 ++ [pt], true)
        else (st.1, st.2.1, false))
      (p0, [p0], true)
    if st.2.2 then st.2.1
    else
      match rest.getLast? with
      | some last => st.2.1 ++ [last]
      | none => st.2.1

/-- The scan of simplify-js `simplifyDPStep`: running max of the squared
segment distances over indices `first+1 … last-1`, recorded only once it
strictly exceeds the squared tolerance, index of the first maximum.
Returns `none` exactly when the final `maxSqDist > sqTolerance` check of the
source fails. -/
def dpScan (points : List Point) (first last : ℕ) (sqTolerance : ℚ) :
    Option (ℕ × ℚ) :=
  (List.range' (first + 1) (last - (first + 1))).foldl
    (fun st i =>
      let d := getSqSegDist (points.getD i (0, 0)) (points.getD first (0, 0))
        (points.getD last (0, 0))
      match st with
      | none => if sqTolerance < d then some (i, d) else none
      | some (j, m) => if m < d then some (i, d) else some (j, m))
    none

theorem dpScan_bounds (points : List Point) (first last : ℕ) (sqTolerance : ℚ)
    (i : ℕ) (m : ℚ) (h : dpScan points first last sqTolerance = some (i, m)) :
    first + 1 ≤ i ∧ i < last := by
  unfold dpScan at h
  have key : ∀ (l : List ℕ) (st : Option (ℕ × ℚ)),
      (∀ x ∈ l, first + 1 ≤ x ∧ x < last) →
      (∀ j m0, st = some (j, m0) → first + 1 ≤ j ∧ j < last) →
      ∀ j m0, (l.foldl
        (fun st i =>
          let d := getSqSegDist (points.getD i (0, 0)) (points.getD first (0, 0))
            (points.getD last (0, 0))
          match st with
          | none => if sqTolerance < d then some (i, d) else none
          | some (j, m) => if m < d then some (i, d) else some (j, m))
        st) = some (j, m0) → first + 1 ≤ j ∧ j < last := by
    intro l
    induction l with
    | nil => intro st _ hst j m0 hj; exact hst j m0 hj
    | cons x xs ih =>
      intro st hl hst j m0 hj
      refine ih _ (fun y hy => hl y (List.mem_cons_of_mem _ hy)) ?_ j m0 hj
      intro j1 m1 h1
      dsimp only at h1
      rcases st with _ | ⟨j2, m2⟩
      · simp only at h1
        split at h1
        · simp only [Option.some.injEq, Prod.mk.injEq] at h1
          exact h1.1 ▸ hl x (List.mem_cons_self x xs)
        · exact absurd h1 (by simp)
      · simp only at h1
        split at h1
        · simp only [Option.some.injEq, Prod.mk.injEq] at h1
          exact h1.1 ▸ hl x (List.mem_cons_self x xs)
        · simp only [Option.some.injEq, Prod.mk.injEq] at h1
          exact h1.1 ▸ hst j2 m2 rfl
  refine key _ none (fun x hx => ?_) (by simp) i m h
  have := List.mem_range'.mp hx
  omega

/-- simplify-js `simplifyDPStep`: the Douglas–Peucker recursion, with an
explicit fuel argument making the recursion structural (so that concrete
inputs evaluate inside the kernel).  Each recursive call of the source
strictly decreases `last - first`, so any `fuel ≥ last - first` reproduces
the source recursion exactly; `simplifyDouglasPeucker` below passes
`points.length`, which always suffices.  Returns the in-order list of kept
interior points between `first` and `last` (the source pushes them into a
shared accumulator; endpoints are added by `simplifyDouglasPeucker`). -/
def simplifyDPStep (points : List Point) (sqTolerance : ℚ) :
    ℕ → ℕ → ℕ → List Point
  | 0, _, _ => []
  | fuel + 1, first, last =>
    match dpScan points first last sqTolerance with
    | none => []
    | some (index, _) =>
      (if 1 < index - first then
        simplifyDPStep points sqTolerance fuel first index
       else []) ++
      [points.getD index (0, 0)] ++
      (if 1 < last - index then
        simplifyDPStep points sqTolerance fuel index last
       else [])

/-- simplify-js `simplifyDouglasPeucker`. -/
def simplifyDouglasPeucker (points : List Point) (sqTolerance : ℚ) :
    List Point :=
  let last := points.length - 1
  [points.getD 0 (0, 0)] ++
    simplifyDPStep points sqTolerance points.length 0 last ++
    [points.getD last (0, 0)]

/-- simplify-js `simplify(points, tolerance, highestQuality)`. -/
def simplify (points : List Point) (tolerance : ℚ) (highestQuality : Bool) :
    List Point :=
  if points.length ≤ 2 then points
  else
    let sqTolerance := tolerance * tolerance
    let points := if highestQuality then points
      else simplifyRadialDist points sqTolerance
    simplifyDouglasPeucker points sqTolerance

/-! ## `utils/maths.ts` -/

/-- `crossProduct` of `maths.ts`: orientation of `b` about the directed line
`o → a`. -/
def crossProduct (o a b : Point) : ℚ :=
  (a.1 - o.1) * (b.2 - o.2) - (a.2 - o.2) * (b.1 - o.1)

/-! ## `utils/geometry.ts` — Bezier resampling -/

/-- A path vertex as consumed by `resampleBezierPath` (`Vertex` of
`types.ts`): a position and optional absolute tangent handles.  The
`isValidTangent` finite/`NaN` check of the source is `Option.isSome` here,
since every present rational tangent is finite. -/
structure Vertex where
  position : Point
  inTangent : Option Point
  outTangent : Option Point
deriving DecidableEq, Repr

instance : Inhabited Vertex := ⟨⟨(0, 0), none, none⟩⟩

/-- The local `calculateArea` of `resampleBezierPath`: absolute shoelace
area of a point list. -/
def calculateArea (points : List Point) : ℚ :=
  |(List.range points.length).foldl
      (fun area i =>
        let j := (i + 1) % points.length
        area + (points.getD i (0, 0)).1 * (points.getD j (0, 0)).2
             - (points.getD j (0, 0)).1 * (points.getD i (0, 0)).2)
      0| / 2

/-- Minimum of a list, seeded from its own head (`Math.min(...list)`; the
empty case is unreachable behind the caller's length guard). -/
def listMin (l : List ℚ) : ℚ :=
  match l with
  | [] => 0
  | x :: xs => xs.foldl min x

/-- Maximum of a list, seeded from its own head (`Math.max(...list)`). -/
def listMax (l : List ℚ) : ℚ :=
  match l with
  | [] => 0
  | x :: xs => xs.foldl max x

/-- The cubic Bernstein evaluation underlying bezier-js: `getLUT(steps)`
returns this at `t = j / steps`.  `resampleBezierPath` consumes the entries
`j < lut.length - 1`, i.e. `t = j / steps` for `j = 0 … steps - 1`. -/
def bezierPoint (p0 p1 p2 p3 : Point) (t : ℚ) : Point :=
  let u := 1 - t
  (u * u * u * p0.1 + 3 * u * u * t * p1.1 + 3 * u * t * t * p2.1
     + t * t * t * p3.1,
   u * u * u * p0.2 + 3 * u * u * t * p1.2 + 3 * u * t * t * p2.2
     + t * t * t * p3.2)

/-- The push-with-collinearity-filter of the `resampleBezierPath` sampling
loop: a new point is dropped when the turn against the last two accepted
points has cross-product magnitude below `0.005`. -/
def pushResampled (resampled : List Point) (point : Point) : List Point :=
  if 2 ≤ resampled.length then
    let p1 := resampled.getD (resampled.length - 2) (0, 0)
    let p2 := resampled.getD (resampled.length - 1) (0, 0)
    let v1x := p2.1 - p1.1
    let v1y := p2.2 - p1.2
    let v2x := point.1 - p2.1
    let v2y := point.2 - p2.2
    if |v1x * v2y - v1y * v2x| < 5 / 1000 then resampled
    else resampled ++ [point]
  else resampled ++ [point]

/-- The raw sampling stage of `resampleBezierPath`: per consecutive vertex
pair (wrapping), build the cubic from the outgoing/incoming tangents when
present and within `2 ×` the bounding-box max dimension (the source compares
`Math.sqrt` of the squared distance against `maxOffset`; embedded as the
exact squared comparison), and push `samplesPerSegment` curve samples
through the collinearity filter.  The curve-construction `try`/`catch`
fallback of the source is unreachable for finite control points. -/
def resampleRaw (vertices : List Vertex) (samplesPerSegment : ℕ) :
    List Point :=
  let positions := vertices.map (·.position)
  let shapeWidth := listMax (positions.map (·.1)) - listMin (positions.map (·.1))
  let shapeHeight := listMax (positions.map (·.2)) - listMin (positions.map (·.2))
  let maxOffset := max shapeWidth shapeHeight * 2
  (List.range vertices.length).foldl
    (fun resampled i =>
      let current := vertices.getD i default
      let next := vertices.getD ((i + 1) % vertices.length) default
      let p0 := current.position
      let p3 := next.position
      let p1 := match current.outTangent with
        | some tg => if getSqDist tg p0 ≤ maxOffset * maxOffset then tg else p0
        | none => p0
      let p2 := match next.inTangent with
        | some tg => if getSqDist tg p3 ≤ maxOffset * maxOffset then tg else p3
        | none => p3
      (List.range samplesPerSegment).foldl
        (fun resampled j =>
          pushResampled resampled
            (bezierPoint p0 p1 p2 p3 ((j : ℚ) / (samplesPerSegment : ℚ))))
        resampled)
    []

/-- The high-curvature point filter of `resampleBezierPath`: endpoints are
always kept; an interior point is kept when the normalized direction change
has dot product below `0.98`.  The source compares
`dot / (‖v1‖ ‖v2‖) < 0.98`; with both squared norms positive this is exactly
`dot ≤ 0 ∨ 2500 dot² < 2401 ‖v1‖² ‖v2‖²`, which is the form embedded. -/
def importantPoints (resampled : List Point) : List Point :=
  (List.range resampled.length).filterMap
    (fun i =>
      if i = 0 ∨ i = resampled.length - 1 then some (resampled.getD i (0, 0))
      else
        let prev := resampled.getD (i - 1) (0, 0)
        let curr := resampled.getD i (0, 0)
        let next := resampled.getD (i + 1) (0, 0)
        let v1x := curr.1 - prev.1
        let v1y := curr.2 - prev.2
        let v2x := next.1 - curr.1
        let v2y := next.2 - curr.2
        let s1 := v1x * v1x + v1y * v1y
        let s2 := v2x * v2x + v2y * v2y
        if 0 < s1 ∧ 0 < s2 then
          let d := v1x * v2x + v1y * v2y
          if d ≤ 0 ∨ d * d * 2500 < 2401 * (s1 * s2) then some curr else none
        else none)

/-- JavaScript `Array.prototype.findIndex` by value equality, `-1` when
absent (used by the re-insertion sort comparator of `resampleBezierPath`). -/
def findIdxJS (l : List Point) (p : Point) : ℤ :=
  match l.findIdx? (fun q => q = p) with
  | some i => (i : ℤ)
  | none => -1

/-- Insertion of one element into a sorted list (helper for
`sortPointsBy`). -/
def insertSortedBy (le : Point → Point → Bool) (x : Point) :
    List Point → List Point
  | [] => [x]
  | y :: ys => if le x y then x :: y :: ys else y :: insertSortedBy le x ys

/-- Insertion sort.  Stands in for `Array.prototype.sort`: at every use in
the source the comparator key is injective on the values present (two points
with the same `findIndex` key, or the same polar angle and the same squared
distance from the pivot, are the same point), so the sorted order is unique
and independent of the sorting algorithm. -/
def sortPointsBy (le : Point → Point → Bool) : List Point → List Point
  | [] => []
  | x :: xs => insertSortedBy le x (sortPointsBy le xs)

/-- The post-processing pass of `resampleBezierPath`: when the
curvature-constraint mode is on (at least `MIN_POINTS` important points and
fewer than half of the resampled points — `length * 0.5` is exact over `ℚ`),
re-insert the important points that the simplification dropped and re-sort
by original index.  The source's `Set` of `"x,y"` string keys is value
equality of points. -/
def reinsertImportant (resampled simplified : List Point) : List Point :=
  let important := importantPoints resampled
  let useConstraints :=
    3 ≤ important.length ∧ 2 * important.length < resampled.length
  if useConstraints ∧ 0 < important.length then
    let missing := important.filter (fun p => ¬ p ∈ simplified)
    if missing ≠ [] then
      sortPointsBy
        (fun a b => decide (findIdxJS resampled a ≤ findIdxJS resampled b))
        (simplified ++ missing)
    else simplified
  else simplified

/-- `resampleBezierPath` of `geometry.ts` (signature: vertices and the
samples-per-segment density, which defaults to 15 at the TypeScript level).
The finite/`NaN` input validations of the source are vacuous over `ℚ` and
noted where they occur. -/
def resampleBezierPath (vertices : List Vertex) (samplesPerSegment : ℕ) :
    List Point :=
  -- MIN_POINTS = 3, MIN_AREA = 0.1
  if vertices.length < 2 then []
  else
    -- the `!vertices`/`hasInvalidPositions` validations hold vacuously in ℚ
    let resampled := resampleRaw vertices samplesPerSegment
    if resampled.length < 3 then []
    else if calculateArea resampled < 1 / 10 then []
    else
      let tolerance : ℚ := 4
      let simplified := reinsertImportant resampled
        (simplify resampled tolerance true)
      if simplified.length < 3 then resampled else simplified

/-! ## `utils/geometry.ts` — `combineVertices` and `mapVertices` -/

/-- `combineVertices` of `geometry.ts`: validates vertex sets (length ≥ 3
and finite coordinates — the latter vacuous over `ℚ`) and returns the first
valid set; it never merges geometry. -/
def combineVertices (setsOfVertices : List (List Point)) : List Point :=
  match setsOfVertices with
  | [] => []
  | [vertices] => if vertices.length < 3 then [] else vertices
  | _ =>
    let validSets := setsOfVertices.filter (fun v => 3 ≤ v.length)
    match validSets with
    | [] => []
    | v :: _ => v

/-! ## poly-decomp (library used by `decomposeConcaveShape`)

The `makeCCW` and `isSimple` entry points of the poly-decomp library, which
`decomposeConcaveShape` calls before choosing a branch.  `quickDecomp` (the
simple-polygon branch) is kept as an explicit function parameter of
`decomposeConcaveShape`: no claim concerns that branch, and the theorems
below hold for every value of it. -/

/-- poly-decomp `polygonAt`: cyclic indexing with the JavaScript remainder
(`i % s` truncates toward zero, so a negative `i` gets `+ s`). -/
def polygonAt (polygon : List Point) (i : ℤ) : Point :=
  let s : ℤ := polygon.length
  let idx := if i < 0 then Int.tmod i s + s else Int.tmod i s
  polygon.getD idx.toNat (0, 0)

/-- poly-decomp `triangleArea`. -/
def triangleArea (a b c : Point) : ℚ :=
  (b.1 - a.1) * (c.2 - a.2) - (c.1 - a.1) * (b.2 - a.2)

/-- poly-decomp `makeCCW`: find the bottom-right vertex and reverse the
polygon when the turn there is not a left turn.  The source mutates its
argument in place; the embedded version returns the resulting list. -/
def makeCCW (polygon : List Point) : List Point :=
  let br := (List.range polygon.length).foldl
    (fun br i =>
      let vi := polygon.getD i (0, 0)
      let vb := polygon.getD br (0, 0)
      if vi.2 < vb.2 ∨ (vi.2 = vb.2 ∧ vb.1 < vi.1) then i else br)
    0
  if ¬ 0 < triangleArea (polygonAt polygon ((br : ℤ) - 1))
      (polygonAt polygon br) (polygonAt polygon ((br : ℤ) + 1)) then
    polygon.reverse
  else polygon

/-- poly-decomp `lineSegmentsIntersect`; parallel segments (zero
denominator) report no intersection. -/
def lineSegmentsIntersect (p1 p2 q1 q2 : Point) : Bool :=
  let dx := p2.1 - p1.1
  let dy := p2.2 - p1.2
  let da := q2.1 - q1.1
  let db := q2.2 - q1.2
  if da * dy - db * dx = 0 then false
  else
    let s := (dx * (q1.2 - p1.2) + dy * (p1.1 - q1.1)) / (da * dy - db * dx)
    let t := (da * (p1.2 - q1.2) + db * (q1.1 - p1.1)) / (db * dx - da * dy)
    decide (0 ≤ s ∧ s ≤ 1 ∧ 0 ≤ t ∧ t ≤ 1)

/-- poly-decomp `isSimple`: checks all pairs of non-adjacent edges, then the
closing edge against the interior edges. -/
def polygonIsSimple (path : List Point) : Bool :=
  let n := path.length
  let d := fun i => path.getD i ((0 : ℚ), (0 : ℚ))
  let bad1 := (List.range (n - 1)).any
    (fun i => (List.range (i - 1)).any
      (fun j => lineSegmentsIntersect (d i) (d (i + 1)) (d j) (d (j + 1))))
  let bad2 := (List.range' 1 (n - 3)).any
    (fun i => lineSegmentsIntersect (d 0) (d (n - 1)) (d i) (d (i + 1)))
  !(bad1 || bad2)

/-! ## `utils/geometry.ts` — convex hull and decomposition -/

/-- Classification of `Math.atan2 (v.2) (v.1)` into the four constant-order
regions `(-π, 0)`, `{0}` (which also receives the zero vector, as
`atan2(0,0) = 0`), `(0, π)` and `{π}`, in increasing order of angle. -/
def atan2Region (v : Point) : ℕ :=
  if v.2 < 0 then 0
  else if v.2 = 0 ∧ 0 ≤ v.1 then 1
  else if 0 < v.2 then 2
  else 3

/-- Exact comparison `atan2 a.2 a.1 < atan2 b.2 b.1` of the real polar
angles: distinct regions compare by region; within the open half-plane
regions the angle difference lies in `(-π, π)`, so its sign is the sign of
the cross product.  (The source compares floating `atan2` values; the
embedding compares the ideal angles.) -/
def angleLt (a b : Point) : Bool :=
  if atan2Region a ≠ atan2Region b then decide (atan2Region a < atan2Region b)
  else decide (0 < a.1 * b.2 - a.2 * b.1)

/-- The sort ordering of `computeConvexHull`: ascending polar angle about
the pivot, ties broken by ascending squared distance (the source comparator
returns `angleA - angleB`, then `distA - distB`). -/
def hullSortLE (pivot a b : Point) : Bool :=
  let va : Point := (a.1 - pivot.1, a.2 - pivot.2)
  let vb : Point := (b.1 - pivot.1, b.2 - pivot.2)
  if angleLt va vb then true
  else if angleLt vb va then false
  else decide (getSqDist a pivot ≤ getSqDist b pivot)

/-- One pop phase of the Graham scan: with the stack held top-first, discard
tops while the turn `hull[-2] → hull[-1] → point` is not a strict left turn
(`crossProduct ≤ 0`), exactly the `while` loop of `computeConvexHull`. -/
def grahamPop (point : Point) : List Point → List Point
  | b :: a :: rest =>
    if crossProduct a b point ≤ 0 then grahamPop point (a :: rest)
    else b :: a :: rest
  | l => l

/-- Swap two list positions (the source swaps the bottom point to the front
of its array in place). -/
def listSwap (l : List Point) (i j : ℕ) : List Point :=
  (l.set i (l.getD j (0, 0))).set j (l.getD i (0, 0))

/-- `computeConvexHull` of `geometry.ts`: lowest-then-leftmost pivot,
polar-angle sort with distance tie-break, monotonic-stack scan discarding
non-left turns.  The scan stack is kept top-first and reversed at the end
(the source pushes/pops at the array tail). -/
def computeConvexHull (points : List Point) : List Point :=
  if points.length < 3 then points
  else
    let bottom := (List.range points.length).foldl
      (fun bottom i =>
        let pi := points.getD i (0, 0)
        let pb := points.getD bottom (0, 0)
        if pi.2 < pb.2 ∨ (pi.2 = pb.2 ∧ pi.1 < pb.1) then i else bottom)
      0
    let points := listSwap points 0 bottom
    let pivot := points.getD 0 (0, 0)
    let sortedPoints := sortPointsBy (hullSortLE pivot) (points.drop 1)
    (sortedPoints.foldl (fun stack point => point :: grahamPop point stack)
      [pivot]).reverse

/-- The simplified, winding-forced point list that `decomposeConcaveShape`
hands to poly-decomp (its locals `pointsToUse`/`points`; the `{x,y}` ↔
`[x,y]` conversions of the source are identities here). -/
def decompPointsToUse (vertices : List Point) : List Point :=
  let simplified := simplify vertices 4 true
  makeCCW (if 3 ≤ simplified.length then simplified else vertices)

/-- `decomposeConcaveShape` of `geometry.ts`.  `quickDecomp` is poly-decomp's
optimal convex partition, taken as a parameter (see the section comment);
the finite/`NaN` validations of the source are vacuous over `ℚ`, and the
`try`/`catch` is unreachable as no embedded operation throws. -/
def decomposeConcaveShape (quickDecomp : List Point → List (List Point))
    (vertices : List Point) : List (List Point) :=
  if vertices.length < 3 then []
  else
    let points := decompPointsToUse vertices
    if polygonIsSimple points then
      let parts := quickDecomp points
      -- parts with fewer than 3 points (or invalid coordinates) are dropped
      parts.filter (fun part => 3 ≤ part.length)
    else
      let externalPoints := computeConvexHull points
      if externalPoints.length < 3 then []
      else [externalPoints]

/-- Membership test "inside or on" for a convex counterclockwise polygon:
the point is weakly left of every directed edge. -/
def insideOrOnConvexCCW (poly : List Point) (q : Point) : Bool :=
  (List.range poly.length).all
    (fun i => decide (0 ≤ crossProduct (poly.getD i (0, 0))
      (poly.getD ((i + 1) % poly.length) (0, 0)) q))

/-! ## `types.ts` — host-supplied layer data -/

/-- `lastKeyFrame` marker of an `AnimatedSeries` (`null` is `none` at its
use sites). -/
structure LastKeyFrame where
  frame : ℤ
  isHold : Bool
deriving DecidableEq, Repr

/-- `AnimatedSeries<[number, number]>` of `types.ts`. -/
structure AnimatedSeriesVec where
  preValue : Point
  values : List Point
  lastKeyFrame : Option LastKeyFrame
deriving DecidableEq, Repr

/-- `AnimatedSeries<number>` of `types.ts`. -/
structure AnimatedSeriesNum where
  preValue : ℚ
  values : List ℚ
  lastKeyFrame : Option LastKeyFrame
deriving DecidableEq, Repr

/-- The `animatedProperties` record of a layer.  Every field is optional
here because the source reads them through optional chaining. -/
structure AnimatedProperties where
  position : Option AnimatedSeriesVec
  rotation : Option AnimatedSeriesNum
  scale : Option AnimatedSeriesVec
  anchorPoint : Option AnimatedSeriesVec
  bodyType : Option AnimatedSeriesNum
  density : Option AnimatedSeriesNum
  friction : Option AnimatedSeriesNum
  frictionAir : Option AnimatedSeriesNum
  restitution : Option AnimatedSeriesNum
deriving DecidableEq, Repr

/-- `startPropertiesValues` of a layer (`bodyType` 1 = dynamic,
2 = static). -/
structure StartPropertiesValues where
  bodyType : ℚ
  density : ℚ
  friction : ℚ
  frictionAir : ℚ
  restitution : ℚ
deriving DecidableEq, Repr

/-- The slice of `BaseLayer` read by the animation-plan builder and body
creation. -/
structure Layer where
  name : String
  isStatic : Option Bool
  inOut : Option (List ℚ)
  animatedProperties : Option AnimatedProperties
  startPropertiesValues : Option StartPropertiesValues
deriving DecidableEq, Repr

/-- The slice of `CompositionData` read by the embedded functions. -/
structure CompositionData where
  layers : List (ℕ × Layer)
deriving DecidableEq, Repr

/-- Association-list lookup, the embedding of JavaScript object indexing
(`data[key]`). -/
def listLookup {α : Type} (l : List (ℕ × α)) (key : ℕ) : Option α :=
  match l.find? (fun e => e.1 = key) with
  | some e => some e.2
  | none => none

/-! ## `utils/animationPlan.ts` -/

/-- A position series of the plan (`pre`, `values`, `last`, `isHold`). -/
structure PlanSeriesPos where
  pre : Point
  values : List Point
  last : ℤ
  isHold : Bool
deriving DecidableEq, Repr

/-- A rotation series of the plan. -/
structure PlanSeriesRot where
  pre : ℚ
  values : List ℚ
  last : ℤ
  isHold : Bool
deriving DecidableEq, Repr

/-- A vector-valued series of the plan without a hold flag (scale, anchor:
the builder does not copy `isHold` for these). -/
structure PlanSeriesVec where
  pre : Point
  values : List Point
  last : ℤ
deriving DecidableEq, Repr

/-- A scalar series of the plan without a hold flag (material properties
and body type). -/
structure PlanSeriesNum where
  pre : ℚ
  values : List ℚ
  last : ℤ
deriving DecidableEq, Repr

/-- One layer's entry of the `AnimationPlan`. -/
structure LayerPlan where
  name : String
  position : Option PlanSeriesPos
  rotation : Option PlanSeriesRot
  scale : Option PlanSeriesVec
  anchorPoint : Option PlanSeriesVec
  density : Option PlanSeriesNum
  friction : Option PlanSeriesNum
  frictionAir : Option PlanSeriesNum
  restitution : Option PlanSeriesNum
  bodyType : Option PlanSeriesNum
deriving DecidableEq, Repr

/-- `AnimationPlan` of `types.ts`. -/
structure AnimationPlan where
  physicsStartFrame : ℤ
  layers : List (ℕ × LayerPlan)
deriving DecidableEq, Repr

/-- `plan.layers[layerId]` with a possibly-undefined layer id. -/
def AnimationPlan.layerOf (plan : AnimationPlan) (layerId : Option ℕ) :
    Option LayerPlan :=
  match layerId with
  | some id => listLookup plan.layers id
  | none => none

/-- The per-layer series collection of `buildAnimationPlan`: each series is
copied into the plan exactly when its raw series carries a `lastKeyFrame`
marker. -/
def buildLayerPlan (name : String) (ap : AnimatedProperties) : LayerPlan :=
  { name := name
    position := ap.position.bind (fun s => s.lastKeyFrame.map
      (fun lk => ⟨s.preValue, s.values, lk.frame, lk.isHold⟩))
    rotation := ap.rotation.bind (fun s => s.lastKeyFrame.map
      (fun lk => ⟨s.preValue, s.values, lk.frame, lk.isHold⟩))
    scale := ap.scale.bind (fun s => s.lastKeyFrame.map
      (fun lk => ⟨s.preValue, s.values, lk.frame⟩))
    anchorPoint := ap.anchorPoint.bind (fun s => s.lastKeyFrame.map
      (fun lk => ⟨s.preValue, s.values, lk.frame⟩))
    density := ap.density.bind (fun s => s.lastKeyFrame.map
      (fun lk => ⟨s.preValue, s.values, lk.frame⟩))
    friction := ap.friction.bind (fun s => s.lastKeyFrame.map
      (fun lk => ⟨s.preValue, s.values, lk.frame⟩))
    frictionAir := ap.frictionAir.bind (fun s => s.lastKeyFrame.map
      (fun lk => ⟨s.preValue, s.values, lk.frame⟩))
    restitution := ap.restitution.bind (fun s => s.lastKeyFrame.map
      (fun lk => ⟨s.preValue, s.values, lk.frame⟩))
    bodyType := ap.bodyType.bind (fun s => s.lastKeyFrame.map
      (fun lk => ⟨s.preValue, s.values, lk.frame⟩)) }

/-- Whether a layer plan carries at least one series (the condition under
which `buildAnimationPlan` adds the layer to the plan). -/
def LayerPlan.hasAnySeries (lp : LayerPlan) : Bool :=
  lp.position.isSome || lp.rotation.isSome || lp.scale.isSome ||
  lp.anchorPoint.isSome || lp.density.isSome || lp.friction.isSome ||
  lp.frictionAir.isSome || lp.restitution.isSome || lp.bodyType.isSome

/-- One iteration of `buildAnimationPlan`'s `Object.entries(...).forEach`
body: skip layers without `animatedProperties`, collect the series, raise
the running last position frame when the layer has a position last
keyframe, and append the layer plan when any series was collected. -/
def buildPlanStep (st : ℤ × List (ℕ × LayerPlan)) (entry : ℕ × Layer) :
    ℤ × List (ℕ × LayerPlan) :=
  match entry.2.animatedProperties with
  | none => st
  | some ap =>
    let layerPlan := buildLayerPlan entry.2.name ap
    let lastPositionFrame :=
      match ap.position with
      | some ps =>
        match ps.lastKeyFrame with
        | some lk => max st.1 lk.frame
        | none => st.1
      | none => st.1
    let layers :=
      if layerPlan.hasAnySeries then st.2 ++ [(entry.1, layerPlan)]
      else st.2
    (lastPositionFrame, layers)

/-- `buildAnimationPlan` of `animationPlan.ts`.  The `!compId` guard of the
source is JavaScript falsiness, so a `0` composition id also yields the
empty plan. -/
def buildAnimationPlan (currentCompId : Option ℕ)
    (compData : Option (List (ℕ × CompositionData))) : AnimationPlan :=
  match currentCompId, compData with
  | some compId, some data =>
    if compId = 0 then { physicsStartFrame := -1, layers := [] }
    else
      match listLookup data compId with
      | none => { physicsStartFrame := -1, layers := [] }
      | some comp =>
        let res := comp.layers.foldl buildPlanStep (-1, [])
        { physicsStartFrame := res.1, layers := res.2 }
  | _, _ => { physicsStartFrame := -1, layers := [] }

/-- The layers of the composition selected by `buildAnimationPlan`'s guard
(empty when the guard bails out).  Written for the refinement statement of
the gating claim. -/
def selectedCompLayers (currentCompId : Option ℕ)
    (compData : Option (List (ℕ × CompositionData))) : List (ℕ × Layer) :=
  match currentCompId, compData with
  | some compId, some data =>
    if compId = 0 then []
    else
      match listLookup data compId with
      | none => []
      | some comp => comp.layers
  | _, _ => []

/-- Modelled from the spec clause "`physicsStartFrame` = the maximum `last`
index across all layers' position series (or −1 if none animated)": the
position-series last-keyframe frames of the selected composition, and
nothing else. -/
def positionLastFrames (currentCompId : Option ℕ)
    (compData : Option (List (ℕ × CompositionData))) : List ℤ :=
  (selectedCompLayers currentCompId compData).filterMap
    (fun e => ((e.2.animatedProperties.bind (·.position)).bind
      (·.lastKeyFrame)).map (·.frame))

/-! ## matter-js bodies (external solver state, shallow)

The fields of a matter-js `Body` that the simulation core reads or writes,
with the solver's own mutators embedded as the corresponding field updates.
Solver-internal bookkeeping (mass redistribution on `setStatic`/`setDensity`,
vertex geometry under `Body.scale`) is external capability per the spec and
not tracked. -/

/-- The `render` record of a body (or of one of its parts). -/
structure Render where
  opacity : ℚ
  fillStyle : String
  strokeStyle : String
deriving DecidableEq, Repr

/-- `plugin.layerData` stored on each created body. -/
structure LayerData where
  inOut : List ℚ
  layerId : ℕ
  isStaticInitial : Option Bool
deriving DecidableEq, Repr

/-- `plugin.initialProperties` captured at body creation. -/
structure InitialProperties where
  mass : ℚ
  inertia : ℚ
  density : ℚ
  friction : ℚ
  frictionAir : ℚ
  restitution : ℚ
deriving DecidableEq, Repr

/-- `plugin.dynamicProperties` snapshotted by `setBodyType` on the
dynamic → static direction. -/
structure DynamicProperties where
  mass : ℚ
  inertia : ℚ
  friction : ℚ
  frictionAir : ℚ
  restitution : ℚ
deriving DecidableEq, Repr

/-- The `plugin` bag of a body. -/
structure Plugin where
  layerData : Option LayerData
  scaleX : Option ℚ
  scaleY : Option ℚ
  initialProperties : Option InitialProperties
  dynamicProperties : Option DynamicProperties
  isStatic : Option Bool
  isStaticInitial : Option Bool
  originalFillStyle : Option String
  originalStrokeStyle : Option String
deriving DecidableEq, Repr

/-- A matter-js body, as observed by the simulation core.  `partsRender`
holds the render records of the compound parts other than the body itself
(the source iterates `body.parts` skipping `part === body`; its
`parts.length > 1` guard is emptiness of this list). -/
structure Body where
  position : Point
  velocity : Point
  angle : ℚ
  angularVelocity : ℚ
  isStatic : Bool
  isSleeping : Bool
  mass : ℚ
  inertia : ℚ
  density : ℚ
  friction : ℚ
  frictionAir : ℚ
  restitution : ℚ
  render : Option Render
  partsRender : List Render
  collisionCategory : ℕ
  collisionMask : ℕ
  plugin : Plugin
deriving DecidableEq, Repr

/-- matter-js `Body.setPosition` (velocity untouched without the
`updateVelocity` flag, which the source never passes). -/
def Body.setPosition (body : Body) (p : Point) : Body :=
  { body with position := p }

/-- matter-js `Body.setVelocity`. -/
def Body.setVelocity (body : Body) (v : Point) : Body :=
  { body with velocity := v }

/-- matter-js `Body.setAngle`. -/
def Body.setAngle (body : Body) (a : ℚ) : Body :=
  { body with angle := a }

/-- matter-js `Body.setAngularVelocity`. -/
def Body.setAngularVelocity (body : Body) (w : ℚ) : Body :=
  { body with angularVelocity := w }

/-- matter-js `Sleeping.set`. -/
def sleepingSet (body : Body) (isSleeping : Bool) : Body :=
  { body with isSleeping := isSleeping }

/-- matter-js `Body.setStatic` (the solver's mass/inertia juggling is
external). -/
def Body.setStatic (body : Body) (isStatic : Bool) : Body :=
  { body with isStatic := isStatic }

/-- matter-js `Body.setMass`. -/
def Body.setMass (body : Body) (mass : ℚ) : Body :=
  { body with mass := mass }

/-- matter-js `Body.setDensity`. -/
def Body.setDensity (body : Body) (density : ℚ) : Body :=
  { body with density := density }

/-- matter-js `Body.scale`: pure vertex-geometry work inside the solver;
none of the tracked fields change (the caller separately records the scale
in `plugin.scaleX`/`scaleY`). -/
def Body.scaleBy (body : Body) (_sx _sy : ℚ) : Body := body

/-! ## `utils/simulation/simInOutPoints.ts` -/

/-- Result record of `checkInOutStatus`. -/
structure InOutResult where
  isDisabled : Bool
  isAtInPoint : Bool
  inPointAfterWorkarea : Bool
deriving DecidableEq, Repr

/-- `checkInOutStatus`: gate a body by its layer's in/out seconds.  The
source's `inOut && inOut[0]` / `inOut && inOut[1]` are JavaScript truthiness
checks, so a missing array, a missing element, or a `0` element fall back to
`0` (in point) and `Infinity` (out point, embedded as `none`). -/
def checkInOutStatus (inOut : Option (List ℚ)) (nextCompFrame : ℤ)
    (compFramerate : ℚ) (workareaStart : ℚ) : InOutResult :=
  let in0 : Option ℚ := inOut.bind (fun l => l.get? 0)
  let out0 : Option ℚ := inOut.bind (fun l => l.get? 1)
  let inPointFrame : ℤ :=
    match in0 with
    | some v => if v ≠ 0 then jsRound (v * compFramerate) else 0
    | none => 0
  let outPointFrame : Option ℤ :=
    match out0 with
    | some v => if v ≠ 0 then some (jsRound (v * compFramerate)) else none
    | none => none
  let workareaStartFrame : ℤ := jsRound (workareaStart * compFramerate)
  let isBeforeInPoint : Bool :=
    decide (workareaStartFrame < inPointFrame) &&
    decide (nextCompFrame < inPointFrame)
  let isAfterOutPoint : Bool :=
    match outPointFrame with
    | some o => decide (o ≤ nextCompFrame)
    | none => false
  { isDisabled := isBeforeInPoint || isAfterOutPoint
    isAtInPoint := decide (nextCompFrame = inPointFrame)
    inPointAfterWorkarea := decide (workareaStartFrame < inPointFrame) }

/-- `applyDisabledState`: sleep the body, dim it and its parts to opacity
`0.25`, and zero its collision category and mask. -/
def applyDisabledState (body : Body) : Body :=
  let body := sleepingSet body true
  let body : Body :=
    match body.render with
    | some r =>
      { body with
          render := some { r with opacity := 1 / 4 },
          partsRender := body.partsRender.map
            (fun (p : Render) => { p with opacity := 1 / 4 }) }
    | none => body
  { body with collisionCategory := 0, collisionMask := 0 }

/-- `applyEnabledState`: restore opacity (half for static bodies) and the
default collision category/mask. -/
def applyEnabledState (body : Body) (isStatic : Bool) : Body :=
  let body : Body :=
    match body.render with
    | some r =>
      let normalOpacity : ℚ := if isStatic then 1 / 2 else 1
      { body with
          render := some { r with opacity := normalOpacity },
          partsRender := body.partsRender.map
            (fun (p : Render) => { p with opacity := normalOpacity }) }
    | none => body
  { body with collisionCategory := 1, collisionMask := 65535 }

/-- JavaScript truthiness of an optional string (`undefined` and `""` are
falsy). -/
def jsTruthyStr (s : Option String) : Bool :=
  match s with
  | some v => !(v = "")
  | none => false

/-- `applyBodyTypeVisuals`: static bodies are shown dimmed and gray (saving
the original styles on first use); dynamic bodies restore the saved
styles. -/
def applyBodyTypeVisuals (body : Body) (isStatic : Bool) : Body :=
  match body.render with
  | none => body
  | some r =>
    let normalOpacity : ℚ := if isStatic then 1 / 2 else 1
    let r := { r with opacity := normalOpacity }
    let body := { body with render := some r }
    let body :=
      if isStatic then
        let body :=
          if ¬ jsTruthyStr body.plugin.originalFillStyle then
            { body with plugin :=
                { body.plugin with
                    originalFillStyle := some r.fillStyle,
                    originalStrokeStyle := some r.strokeStyle } }
          else body
        { body with render := some { r with
            opacity := normalOpacity,
            fillStyle := "#545454", strokeStyle := "#545454" } }
      else
        let r :=
          if jsTruthyStr body.plugin.originalFillStyle then
            { r with fillStyle := body.plugin.originalFillStyle.getD "" }
          else r
        let r :=
          if jsTruthyStr body.plugin.originalStrokeStyle then
            { r with strokeStyle := body.plugin.originalStrokeStyle.getD "" }
          else r
        { body with render := some r }
    let bodyFill := (body.render.map (·.fillStyle)).getD ""
    let bodyStroke := (body.render.map (·.strokeStyle)).getD ""
    let newParts := body.partsRender.map
      (fun (p : Render) =>
        let p := { p with opacity := normalOpacity }
        if isStatic then
          { p with fillStyle := "#545454", strokeStyle := "#545454" }
        else
          -- `plugin.originalFillStyle || body.render.fillStyle` fallback
          let fill := if jsTruthyStr body.plugin.originalFillStyle then
              body.plugin.originalFillStyle.getD "" else bodyFill
          let stroke := if jsTruthyStr body.plugin.originalStrokeStyle then
              body.plugin.originalStrokeStyle.getD "" else bodyStroke
          let p := if !(fill = "") then { p with fillStyle := fill } else p
          if !(stroke = "") then { p with strokeStyle := stroke } else p)
    { body with partsRender := newParts }

/-- `handleInPointActivation`: at a layer's in point, resolve the
static/dynamic state from the bodyType series (clamped to the series and to
its last keyframe), falling back to the series pre-value and then to the
body's `isStaticInitial` flag (an absent flag acts as `false`, as
`Body.setStatic(body, undefined)` would); then re-enable collisions. -/
def handleInPointActivation (body : Body) (layerId : Option ℕ)
    (plan : AnimationPlan) (currentCompIdx : ℕ) : Body :=
  let bt := (plan.layerOf layerId).bind (·.bodyType)
  let wasStaticInitial :=
    ((body.plugin.layerData.bind (·.isStaticInitial)).getD false)
  let atInPointStatic : Bool :=
    match bt with
    | some s =>
      if 0 < s.values.length then
        let candidateIdx : ℤ :=
          min (currentCompIdx : ℤ) ((s.values.length : ℤ) - 1)
        -- lastBodyTypeIdx = s.last here (the `?? -1` default needs bt absent)
        let preInPointIdx : ℤ :=
          if 0 ≤ s.last then min candidateIdx s.last else candidateIdx
        -- preInPointIdx is nonnegative in every reachable case
        decide (jsRound (s.values.getD preInPointIdx.toNat 0) = 2)
      else decide (jsRound s.pre = 2)
    | none => wasStaticInitial
  let body := Body.setStatic body atInPointStatic
  let body := if ¬ atInPointStatic then sleepingSet body false else body
  let body := applyBodyTypeVisuals body atInPointStatic
  { body with collisionCategory := 1, collisionMask := 65535 }

/-! ## `utils/simulation/simKeyframeForcing.ts` -/

/-- `forcePosition`: hard-set position from the keyframe series while inside
the forcing window (zeroing velocity strictly before the last keyframe, on
hold, or when the last keyframe lies outside the expected frame range), and
derive the hand-off velocity at the last keyframe from the discrete
difference, scaled by `simulationFps / compFramerate`. -/
def forcePosition (body : Body) (layerId : Option ℕ) (plan : AnimationPlan)
    (currentCompIdx : ℕ) (expectedCompFrames : ℤ)
    (simulationFps compFramerate : ℚ) : Body :=
  match (plan.layerOf layerId).bind (·.position) with
  | none => body
  | some pos =>
    let posSeries := pos.values
    let lastPosIdx : ℤ := pos.last
    let posIsHold := pos.isHold
    -- `typeof lastPosIdx === "number"` always holds for a present series
    let lastPosInside := 0 ≤ lastPosIdx ∧ lastPosIdx < expectedCompFrames
    let shouldForcePos :=
      ¬ lastPosInside ∨ posIsHold = true ∨ (currentCompIdx : ℤ) ≤ lastPosIdx
    let body :=
      if shouldForcePos ∧ currentCompIdx < posSeries.length then
        let p := posSeries.getD currentCompIdx (0, 0)
        let body := Body.setPosition body p
        let body :=
          if (currentCompIdx : ℤ) < lastPosIdx ∨ posIsHold = true ∨
              ¬ lastPosInside then
            Body.setVelocity body (0, 0)
          else body
        sleepingSet body false
      else body
    if (currentCompIdx : ℤ) = lastPosIdx then
      if 0 < currentCompIdx then
        let cur := posSeries.getD currentCompIdx (0, 0)
        let prev := posSeries.getD (currentCompIdx - 1) (0, 0)
        Body.setVelocity body
          ((cur.1 - prev.1) * (simulationFps / compFramerate),
           (cur.2 - prev.2) * (simulationFps / compFramerate))
      else
        let cur := posSeries.getD currentCompIdx (0, 0)
        Body.setVelocity body
          ((cur.1 - pos.pre.1) * (simulationFps / compFramerate),
           (cur.2 - pos.pre.2) * (simulationFps / compFramerate))
    else body

/-- `forceRotation`: the angular analogue of `forcePosition` (degrees
converted to radians; `π` stays symbolic in the angle until needed, so the
embedding stores angles in degrees times `π/180` as the rational coefficient
of `π` — i.e. angles here are the radian values divided by `π`). -/
def forceRotation (body : Body) (layerId : Option ℕ) (plan : AnimationPlan)
    (currentCompIdx : ℕ) (expectedCompFrames : ℤ)
    (simulationFps compFramerate : ℚ) : Body :=
  match (plan.layerOf layerId).bind (·.rotation) with
  | none => body
  | some rot =>
    let rotSeries := rot.values
    let lastRotIdx : ℤ := rot.last
    let rotIsHold := rot.isHold
    let lastRotInside := 0 ≤ lastRotIdx ∧ lastRotIdx < expectedCompFrames
    let shouldForceRot :=
      ¬ lastRotInside ∨ rotIsHold = true ∨ (currentCompIdx : ℤ) ≤ lastRotIdx
    let body :=
      if shouldForceRot ∧ currentCompIdx < rotSeries.length then
        let r := rotSeries.getD currentCompIdx 0
        let body := Body.setAngle body (r / 180)
        let body :=
          if (currentCompIdx : ℤ) < lastRotIdx ∨ rotIsHold = true ∨
              ¬ lastRotInside then
            Body.setAngularVelocity body 0
          else body
        sleepingSet body false
      else body
    if (currentCompIdx : ℤ) = lastRotIdx then
      if 0 < currentCompIdx then
        let d := rotSeries.getD currentCompIdx 0 -
          rotSeries.getD (currentCompIdx - 1) 0
        Body.setAngularVelocity body
          (d / 180 * (simulationFps / compFramerate))
      else
        let d := rotSeries.getD currentCompIdx 0 - rot.pre
        Body.setAngularVelocity body
          (d / 180 * (simulationFps / compFramerate))
    else body

/-- `forceScale`: while inside the scale series' keyframe window, scale the
body geometry by the ratio to the previously applied scale (geometry is
solver-internal) and record the applied scale in `plugin.scaleX`/`scaleY`,
clamped below by `1e-6`. -/
def forceScale (body : Body) (layerId : Option ℕ) (plan : AnimationPlan)
    (currentCompIdx : ℕ) : Body :=
  match (plan.layerOf layerId).bind (·.scale) with
  | none => body
  | some sc =>
    if (sc.last : ℤ) < (currentCompIdx : ℤ) ∨
        sc.values.length ≤ currentCompIdx then body
    else
      let p := sc.values.getD currentCompIdx (0, 0)
      let scaleX := p.1 / 100
      let scaleY := p.2 / 100
      let eps : ℚ := 1 / 1000000
      let prevScaleX := max (body.plugin.scaleX.getD 1) eps
      let prevScaleY := max (body.plugin.scaleY.getD 1) eps
      let targetScaleX := max scaleX eps
      let targetScaleY := max scaleY eps
      let body := Body.scaleBy body (targetScaleX / prevScaleX)
        (targetScaleY / prevScaleY)
      let body := { body with plugin :=
        { body.plugin with scaleX := some targetScaleX,
                           scaleY := some targetScaleY } }
      sleepingSet body false

/-! ## `utils/simulation/simPhysicsProps.ts` -/

/-- `updatePhysicsProperties`: force material properties while inside their
series' keyframe windows; air friction falls back to the gravity-derived
drag default once its series is exhausted. -/
def updatePhysicsProperties (body : Body) (layerId : Option ℕ)
    (plan : AnimationPlan) (currentCompIdx : ℕ)
    (frictionAirDefault : ℚ) : Body :=
  let lp := plan.layerOf layerId
  let body :=
    match lp.bind (·.density) with
    | some s =>
      if (currentCompIdx : ℤ) ≤ s.last ∧ currentCompIdx < s.values.length then
        let body := Body.setDensity body
          (max (s.values.getD currentCompIdx 0 / 1000) (1 / 1000000))
        sleepingSet body false
      else body
    | none => body
  let body :=
    match lp.bind (·.friction) with
    | some s =>
      if (currentCompIdx : ℤ) ≤ s.last ∧ currentCompIdx < s.values.length then
        sleepingSet { body with friction := s.values.getD currentCompIdx 0 }
          false
      else body
    | none => body
  let body :=
    match lp.bind (·.frictionAir) with
    | some s =>
      if (currentCompIdx : ℤ) ≤ s.last ∧ currentCompIdx < s.values.length then
        sleepingSet
          { body with frictionAir := s.values.getD currentCompIdx 0 } false
      else { body with frictionAir := frictionAirDefault }
    | none => { body with frictionAir := frictionAirDefault }
  match lp.bind (·.restitution) with
  | some s =>
    if (currentCompIdx : ℤ) ≤ s.last ∧ currentCompIdx < s.values.length then
      sleepingSet { body with restitution := s.values.getD currentCompIdx 0 }
        false
    else body
  | none => body

/-! ## `utils/bodies.ts` -/

/-- `setBodyType` of `bodies.ts`: toggle static/dynamic while preserving
physical properties.  With no `plugin.initialProperties` record it warns and
returns without touching the body. -/
def setBodyType (body : Body) (isStatic : Bool) : Body :=
  match body.plugin.initialProperties with
  | none => body
  | some initialProps =>
    let body :=
      if isStatic then
        let dyn : DynamicProperties :=
          { mass := body.mass, inertia := body.inertia,
            friction := body.friction, frictionAir := body.frictionAir,
            restitution := body.restitution }
        let body :=
          { body with plugin := { body.plugin with dynamicProperties := some dyn } }
        Body.setStatic body true
      else
        let body := Body.setMass body initialProps.mass
        let body := Body.setStatic body false
        let body := { body with
          inertia := initialProps.inertia
          friction := initialProps.friction
          frictionAir := initialProps.frictionAir
          restitution := initialProps.restitution }
        let body := Body.setVelocity body (0, 0)
        Body.setAngularVelocity body 0
    { body with plugin := { body.plugin with isStatic := some isStatic } }

/-- The `isStatic` expression of the compound `Body.create` options in
`createMatterBody` (`bodies.ts`), also stored as
`plugin.layerData.isStaticInitial`:
`startPropertiesValues?.bodyType === 1 ? false : true || isStatic`.
Operator precedence parses the else branch as `(true || isStatic)`. -/
def createMatterBodyIsStatic
    (startPropertiesValues : Option StartPropertiesValues)
    (isStatic : Bool) : Bool :=
  match startPropertiesValues with
  | some sp => if sp.bodyType = 1 then false else (true || isStatic)
  | none => (true || isStatic)

/-! ## `utils/simulation/simGravity.ts` — body-type switching -/

/-- `handleBodyTypeSwitch`: inside the bodyType series' window, compare the
rounded sample at the current index against the previous one (the series
pre-value at index 0) and toggle static/dynamic through `setBodyType` when
they differ — but only for bodies not currently disabled. -/
def handleBodyTypeSwitch (body : Body) (layerId : Option ℕ)
    (plan : AnimationPlan) (currentCompIdx : ℕ) (isDisabled : Bool) : Body :=
  match (plan.layerOf layerId).bind (·.bodyType) with
  | none => body
  | some bt =>
    if bt.last < (currentCompIdx : ℤ) ∨ bt.values.length ≤ currentCompIdx then
      body
    else
      let currentValRounded := jsRound (bt.values.getD currentCompIdx 0)
      let prevValRounded :=
        if 0 < currentCompIdx then
          jsRound (bt.values.getD (currentCompIdx - 1) 0)
        -- `initialBodyTypePre ?? currentValRounded`: pre is present in plan
        else jsRound bt.pre
      if ¬ isDisabled = true ∧ currentValRounded ≠ prevValRounded then
        let toStatic := decide (currentValRounded = 2)
        let body := setBodyType body toStatic
        let body := if ¬ toStatic then sleepingSet body false else body
        applyBodyTypeVisuals body toStatic
      else body

/-! ## `hooks/useSimulationRunner` (`main/index.tsx`) — the per-body pass -/

/-- The per-body section of `calculateAllFrames`'s physics-tick loop
(`index.tsx`): gate by in/out status — applying only the disabled state and
returning early when disabled — then enabled-state/in-point handling,
keyframe forcing, material forcing, and body-type switching, in source
order. -/
def processBody (plan : AnimationPlan) (nextCompFrame : ℤ)
    (currentCompIdx : ℕ) (expectedCompFrames : ℤ)
    (simulationFps compFramerate workareaStart frictionAirDefault : ℚ)
    (body : Body) : Body :=
  let layerId := body.plugin.layerData.map (·.layerId)
  let inOut := body.plugin.layerData.map (·.inOut)
  let r := checkInOutStatus inOut nextCompFrame compFramerate workareaStart
  if r.isDisabled then applyDisabledState body
  else
    let body :=
      if ¬ r.inPointAfterWorkarea then applyEnabledState body body.isStatic
      else if r.isAtInPoint then
        handleInPointActivation body layerId plan currentCompIdx
      else body
    let body :=
      if ¬ r.isDisabled = true ∧ ¬ body.isStatic = true then
        sleepingSet body false
      else body
    let body := forcePosition body layerId plan currentCompIdx
      expectedCompFrames simulationFps compFramerate
    let body := forceRotation body layerId plan currentCompIdx
      expectedCompFrames simulationFps compFramerate
    let body := forceScale body layerId plan currentCompIdx
    let body := updatePhysicsProperties body layerId plan currentCompIdx
      frictionAirDefault
    handleBodyTypeSwitch body layerId plan currentCompIdx r.isDisabled

/-! ## `hooks/useSimulationRunner` — snapshot sampling -/

/-- `SIMULATION_FPS` of the runner. -/
def SIMULATION_FPS : ℚ := 50

/-- One iteration of the physics loop's snapshot sampling: after the engine
step, a composition frame is captured when the physics frame index hits
`Math.round(nextCompFrame * samplingRatio)` and `nextCompFrame` has not
passed `expectedCompFrames`; the captured entry records the composition
frame and its time `workarea[0] + nextCompFrame / compFramerate`. -/
def simSampleStep (expectedCompFrames : ℤ) (samplingRatio : ℚ)
    (w0 compFramerate : ℚ) (st : ℕ × List (ℕ × ℚ)) (physicsFrame : ℕ) :
    ℕ × List (ℕ × ℚ) :=
  if (physicsFrame : ℤ) = jsRound ((st.1 : ℚ) * samplingRatio) ∧
      (st.1 : ℤ) ≤ expectedCompFrames then
    (st.1 + 1, st.2 ++ [(st.1, w0 + (st.1 : ℚ) / compFramerate)])
  else st

/-- The snapshot schedule of `calculateAllFrames`: frame 0 captured at the
work-area start, then the physics loop `physicsFrame = 0 … totalPhysicsFrames`
with `totalPhysicsFrames = ⌈duration · 50⌉`,
`expectedCompFrames = round(duration · compFramerate)` and
`samplingRatio = 50 / compFramerate`.  Each entry is (composition frame,
snapshot time); the body states inside each `FrameData` are engine state and
orthogonal to the schedule. -/
def calculateAllFramesSchedule (w0 w1 compFramerate : ℚ) : List (ℕ × ℚ) :=
  let workareaDurationSeconds := w1 - w0
  let totalPhysicsFrames : ℤ := ⌈workareaDurationSeconds * SIMULATION_FPS⌉
  let samplingRatio := SIMULATION_FPS / compFramerate
  let expectedCompFrames : ℤ :=
    jsRound (workareaDurationSeconds * compFramerate)
  ((List.range (totalPhysicsFrames + 1).toNat).foldl
      (simSampleStep expectedCompFrames samplingRatio w0 compFramerate)
      (1, [(0, w0)])).2

/-! ## Theorems settling the claims -/

section ClaimTheorems

attribute [local semireducible] Rat.add Rat.mul Rat.sub Rat.inv

set_option maxRecDepth 16000

/-- C3: in `createMatterBody`, the compound body's `isStatic` creation
option (and the `layerData.isStaticInitial` flag computed by the same
expression) is `true` for every layer whose `startPropertiesValues.bodyType`
is not `1` — including an absent `startPropertiesValues` — regardless of the
layer's own `isStatic` value, because operator precedence makes the else
branch `true || isStatic` constantly true. -/
theorem createMatterBodyIsStatic_constTrue
    (spv : Option StartPropertiesValues) (isStatic : Bool)
    (h : ∀ sp, spv = some sp → sp.bodyType ≠ 1) :
    createMatterBodyIsStatic spv isStatic = true := by
  cases spv with
  | none => rfl
  | some sp =>
    show (if sp.bodyType = 1 then false else (true || isStatic)) = true
    rw [if_neg (h sp rfl)]
    exact Bool.true_or isStatic

/-- Witness for C3: a static-flagged (`bodyType = 2`) layer whose own
`isStatic` is `false` still gets a `true` static creation flag. -/
theorem createMatterBodyIsStatic_constTrue_witness :
    createMatterBodyIsStatic (some ⟨2, 1, 1 / 10, 1 / 100, 1 / 10⟩) false
      = true :=
  createMatterBodyIsStatic_constTrue _ false
    (fun sp hsp => by cases hsp; decide)

/-- The first component of `buildPlanStep`'s fold depends only on the
position-series last keyframes of the traversed layers. -/
theorem buildPlanStep_fold_fst (ls : List (ℕ × Layer)) (a : ℤ)
    (l : List (ℕ × LayerPlan)) :
    (ls.foldl buildPlanStep (a, l)).1 =
      (ls.filterMap (fun e => ((e.2.animatedProperties.bind (·.position)).bind
        (·.lastKeyFrame)).map (·.frame))).foldl max a := by
  induction ls generalizing a l with
  | nil => rfl
  | cons e ls ih =>
    simp only [List.foldl_cons, List.filterMap_cons]
    cases hap : e.2.animatedProperties with
    | none => simp [buildPlanStep, hap, ih]
    | some ap =>
      cases hps : ap.position with
      | none => simp [buildPlanStep, hap, hps, ih]
      | some ps =>
        cases hlk : ps.lastKeyFrame with
        | none => simp [buildPlanStep, hap, hps, hlk, ih]
        | some lk => simp [buildPlanStep, hap, hps, hlk, ih]

/-- C4: for every composition input, `buildAnimationPlan`'s
`physicsStartFrame` is the maximum position-series `lastKeyFrame.frame` over
the layers of the selected composition, `-1` when no layer has one; the
right-hand side mentions only position last keyframes, so rotation, scale,
anchor, density, friction, frictionAir, restitution and bodyType series
never influence the value. -/
theorem buildAnimationPlan_physicsStartFrame (currentCompId : Option ℕ)
    (compData : Option (List (ℕ × CompositionData))) :
    (buildAnimationPlan currentCompId compData).physicsStartFrame =
      (positionLastFrames currentCompId compData).foldl max (-1) := by
  match currentCompId, compData with
  | none, none => rfl
  | none, some d => rfl
  | some cid, none => rfl
  | some cid, some d =>
    unfold buildAnimationPlan positionLastFrames selectedCompLayers
    by_cases h0 : cid = 0
    · simp [h0]
    · simp only [h0, if_false]
      cases hl : listLookup d cid with
      | none => rfl
      | some comp => simpa using buildPlanStep_fold_fst comp.layers (-1) []

/-- C9: `combineVertices` never merges geometry.  On two or more vertex
sets the result is the first set passing validation (at least three points;
the finite-coordinate check is vacuous over `ℚ`), every other valid set is
discarded, and the result is empty exactly when no set validates. -/
theorem combineVertices_firstValid (sets : List (List Point))
    (h : 2 ≤ sets.length) :
    combineVertices sets =
      ((sets.filter (fun v => decide (3 ≤ v.length))).headD []) ∧
    (combineVertices sets = [] ↔ ∀ v ∈ sets, v.length < 3) := by
  match sets with
  | [] => exact absurd h (by decide)
  | [v] => exact absurd h (by simp)
  | v1 :: v2 :: rest =>
    unfold combineVertices
    cases hf : (v1 :: v2 :: rest).filter (fun v => decide (3 ≤ v.length)) with
    | nil =>
      refine ⟨rfl, ?_⟩
      simp only [List.filter_eq_nil_iff] at hf
      constructor
      · intro _ v hv
        have := hf v hv
        simp only [decide_eq_true_eq] at this
        omega
      · intro _; rfl
    | cons w t =>
      have hw : w ∈ (v1 :: v2 :: rest).filter (fun v => decide (3 ≤ v.length)) := by
        rw [hf]; exact List.mem_cons_self w t
      rw [List.mem_filter] at hw
      have hw3 : 3 ≤ w.length := by simpa using hw.2
      refine ⟨rfl, ?_⟩
      constructor
      · intro hempty
        have hw0 : w = [] := hempty
        rw [hw0] at hw3
        simp at hw3
      · intro hall
        exact absurd hw3 (by have := hall w hw.1; omega)

/-- Witness for C9: of three sets, the first too small to validate, the
result is the second set, and the third valid set is discarded. -/
theorem combineVertices_firstValid_witness :
    combineVertices [[(0, 0), (1, 0)], [(0, 0), (2, 0), (0, 2)],
        [(5, 5), (6, 5), (5, 6)]] =
      [((0 : ℚ), (0 : ℚ)), (2, 0), (0, 2)] :=
  (combineVertices_firstValid _ (by decide)).1.trans (by decide)

/-- C10: `setBodyType` is atomic on a missing precondition — for a body
whose plugin lacks an `initialProperties` record it returns with the body
unchanged in every field, in both the static and the dynamic direction. -/
theorem setBodyType_missingInitialProps (body : Body) (isStatic : Bool)
    (h : body.plugin.initialProperties = none) :
    setBodyType body isStatic = body := by
  unfold setBodyType
  rw [h]

/-- A concrete dynamic body whose plugin carries no `initialProperties`
record (for the C10 witness). -/
def bodyWithoutInitialProps : Body :=
  { position := (3, 4), velocity := (1, 2), angle := 1 / 2,
    angularVelocity := 0, isStatic := false, isSleeping := false,
    mass := 2, inertia := 5, density := 1 / 1000, friction := 1 / 10,
    frictionAir := 1 / 100, restitution := 1 / 10,
    render := some ⟨1, "#e9462f", "#e9462f"⟩, partsRender := [],
    collisionCategory := 1, collisionMask := 65535,
    plugin := ⟨some ⟨[1, 2], 1, some false⟩, none, none, none, none,
      none, some false, none, none⟩ }

/-- Witness for C10: a concrete body without `initialProperties` is returned
unchanged, in both the static and the dynamic direction. -/
theorem setBodyType_missingInitialProps_witness :
    setBodyType bodyWithoutInitialProps true = bodyWithoutInitialProps ∧
    setBodyType bodyWithoutInitialProps false = bodyWithoutInitialProps :=
  ⟨setBodyType_missingInitialProps _ true rfl,
   setBodyType_missingInitialProps _ false rfl⟩

/-- Reduction of `checkInOutStatus.isDisabled` for a two-element in/out
array with a nonzero out point: the in-point frame is
`jsRound (inS · framerate)` whether or not `inS` is zero (the falsy branch
also yields `0 = jsRound 0`), and the out-point frame is
`jsRound (outS · framerate)`. -/
theorem checkInOutStatus_isDisabled_eq (inS outS compFramerate workareaStart : ℚ)
    (frame : ℤ) (hout : outS ≠ 0) :
    (checkInOutStatus (some [inS, outS]) frame compFramerate
        workareaStart).isDisabled =
      ((decide (jsRound (workareaStart * compFramerate) <
          jsRound (inS * compFramerate)) &&
        decide (frame < jsRound (inS * compFramerate))) ||
       decide (jsRound (outS * compFramerate) ≤ frame)) := by
  by_cases hi : inS = 0
  · have h0 : jsRound (inS * compFramerate) = 0 := by
      rw [hi, zero_mul]
      norm_num [jsRound]
    simp only [checkInOutStatus, hi, h0]
    simp [hout]
    norm_num [jsRound]
  · simp only [checkInOutStatus]
    simp [hi, hout]

/-- Counterexample to C6 as stated: with in/out seconds `[1/2, 0]` at 30 fps
and work-area start 0, the in frame `15` is strictly after the work-area
start frame `0` and the claim's out frame `jsRound (0 · 30) = 0` is at most
frame `20`, so the claim asserts frame 20 disabled; but the source treats a
zero out point as falsy ("no out point"), and `checkInOutStatus` reports
frame 20 enabled. -/
theorem checkInOutStatus_cex :
    jsRound ((0 : ℚ) * 30) < jsRound ((1 / 2 : ℚ) * 30) ∧
    jsRound ((0 : ℚ) * 30) ≤ (20 : ℤ) ∧
    (checkInOutStatus (some [1 / 2, 0]) 20 30 0).isDisabled = false := by
  refine ⟨by norm_num [jsRound], by norm_num [jsRound], ?_⟩
  decide

/-- C6 (amended): for a body whose in frame
`F_in = jsRound (inS · framerate)` is strictly after the work-area start
frame and whose out seconds are nonzero with out frame
`F_out = jsRound (outS · framerate)`, `checkInOutStatus` reports disabled on
`[workAreaStart, F_in)` and on `[F_out, ∞)`, and enabled on `[F_in, F_out)`.
(The nonzero-out-seconds hypothesis is forced: the source treats a zero out
point as absent.) -/
theorem checkInOutStatus_gating (inS outS compFramerate workareaStart : ℚ)
    (frame : ℤ)
    (hin : jsRound (workareaStart * compFramerate) <
      jsRound (inS * compFramerate))
    (hout : outS ≠ 0) :
    (jsRound (workareaStart * compFramerate) ≤ frame →
      frame < jsRound (inS * compFramerate) →
      (checkInOutStatus (some [inS, outS]) frame compFramerate
        workareaStart).isDisabled = true) ∧
    (jsRound (outS * compFramerate) ≤ frame →
      (checkInOutStatus (some [inS, outS]) frame compFramerate
        workareaStart).isDisabled = true) ∧
    (jsRound (inS * compFramerate) ≤ frame →
      frame < jsRound (outS * compFramerate) →
      (checkInOutStatus (some [inS, outS]) frame compFramerate
        workareaStart).isDisabled = false) := by
  rw [checkInOutStatus_isDisabled_eq inS outS compFramerate workareaStart
    frame hout]
  refine ⟨fun h1 h2 => ?_, fun h1 => ?_, fun h1 h2 => ?_⟩
  · simp [hin, h2]
  · simp [h1]
  · simp only [Bool.or_eq_false_iff, Bool.and_eq_false_iff,
      decide_eq_false_iff_not, not_lt, not_le]
    omega

/-- Witness for C6: at 30 fps with in/out seconds `[1/2, 1]` and work-area
start 0, frame 10 is disabled (before the in frame 15), frame 16 is enabled
(inside `[15, 30)`), and frame 30 is disabled (at the out frame). -/
theorem checkInOutStatus_gating_witness :
    (checkInOutStatus (some [1 / 2, 1]) 10 30 0).isDisabled = true ∧
    (checkInOutStatus (some [1 / 2, 1]) 16 30 0).isDisabled = false ∧
    (checkInOutStatus (some [1 / 2, 1]) 30 30 0).isDisabled = true :=
  ⟨(checkInOutStatus_gating (1 / 2) 1 30 0 10 (by norm_num [jsRound])
      (by norm_num)).1 (by norm_num [jsRound]) (by norm_num [jsRound]),
   (checkInOutStatus_gating (1 / 2) 1 30 0 16 (by norm_num [jsRound])
      (by norm_num)).2.2 (by norm_num [jsRound]) (by norm_num [jsRound]),
   (checkInOutStatus_gating (1 / 2) 1 30 0 30 (by norm_num [jsRound])
      (by norm_num)).2.1 (by norm_num [jsRound])⟩

/-- C2: for a position series whose last keyframe index `K` lies inside the
expected composition-frame range, is not flagged hold, and has a value at
`K`, `forcePosition` at index `K` sets the velocity exactly to
`(v[K] - v[K-1]) · (simulationFps / compFramerate)` componentwise (the
series pre-value standing in for `v[K-1]` when `K = 0`), and a call at
`K + 1` returns the body unchanged — neither position nor velocity is
set. -/
theorem forcePosition_velocityHandoff (body : Body) (layerId : Option ℕ)
    (plan : AnimationPlan) (K : ℕ) (expectedCompFrames : ℤ)
    (simulationFps compFramerate : ℚ) (pos : PlanSeriesPos)
    (hplan : (plan.layerOf layerId).bind (·.position) = some pos)
    (hlast : pos.last = (K : ℤ))
    (hinside : (K : ℤ) < expectedCompFrames)
    (hhold : pos.isHold = false)
    (hlen : K < pos.values.length) :
    (forcePosition body layerId plan K expectedCompFrames simulationFps
        compFramerate).velocity =
      (((pos.values.getD K (0, 0)).1 -
          (if K = 0 then pos.pre else pos.values.getD (K - 1) (0, 0)).1) *
        (simulationFps / compFramerate),
       ((pos.values.getD K (0, 0)).2 -
          (if K = 0 then pos.pre else pos.values.getD (K - 1) (0, 0)).2) *
        (simulationFps / compFramerate)) ∧
    forcePosition body layerId plan (K + 1) expectedCompFrames simulationFps
      compFramerate = body := by
  have hK0 : (0 : ℤ) ≤ (K : ℤ) := Int.ofNat_nonneg K
  constructor
  · unfold forcePosition
    rw [hplan]
    simp only [hlast, hhold]
    by_cases hz : K = 0
    · subst hz
      simp [hinside, hlen, Body.setVelocity]
    · have hpos : 0 < K := Nat.pos_of_ne_zero hz
      simp [hinside, hlen, Body.setVelocity, hz, hpos]
  · unfold forcePosition
    rw [hplan]
    simp only [hlast, hhold]
    have hne : ¬ ((K : ℤ) + 1 ≤ (K : ℤ)) := by omega
    have hne2 : ¬ (((K + 1 : ℕ) : ℤ) = (K : ℤ)) := by omega
    simp [hinside, hne, hne2, Nat.cast_add]

/-- A one-layer plan whose position series has values `(0,0), (3,4)` and
last keyframe index 1 (for the C2 witness). -/
def samplePlanPos : AnimationPlan :=
  { physicsStartFrame := 1,
    layers := [(1,
      { name := "L",
        position := some ⟨(0, 0), [(0, 0), (3, 4)], 1, false⟩,
        rotation := none, scale := none, anchorPoint := none,
        density := none, friction := none, frictionAir := none,
        restitution := none, bodyType := none })] }

/-- Witness for C2: with simulation rate 50 and framerate 25 the hand-off
velocity at `K = 1` is `(3, 4) · 2 = (6, 8)`, and the call at index 2
returns the body unchanged. -/
theorem forcePosition_velocityHandoff_witness :
    (forcePosition bodyWithoutInitialProps (some 1) samplePlanPos 1 10 50
        25).velocity = (6, 8) ∧
    forcePosition bodyWithoutInitialProps (some 1) samplePlanPos 2 10 50 25 =
      bodyWithoutInitialProps := by
  have h := forcePosition_velocityHandoff bodyWithoutInitialProps (some 1)
    samplePlanPos 1 10 50 25 ⟨(0, 0), [(0, 0), (3, 4)], 1, false⟩
    rfl rfl (by decide) rfl (by decide)
  refine ⟨?_, h.2⟩
  rw [h.1]
  decide

/-- C5: on any tick on which `checkInOutStatus` reports a body disabled, the
per-body pass applies exactly the disabled state — sleep, quarter opacity,
zero collision category and mask — and performs no position/rotation/scale
forcing, no material forcing and no body-type switch: every other field of
the body is untouched. -/
theorem processBody_disabled (plan : AnimationPlan) (nextCompFrame : ℤ)
    (currentCompIdx : ℕ) (expectedCompFrames : ℤ)
    (simulationFps compFramerate workareaStart frictionAirDefault : ℚ)
    (body : Body)
    (h : (checkInOutStatus (body.plugin.layerData.map (·.inOut)) nextCompFrame
        compFramerate workareaStart).isDisabled = true) :
    processBody plan nextCompFrame currentCompIdx expectedCompFrames
        simulationFps compFramerate workareaStart frictionAirDefault body =
      applyDisabledState body ∧
    (applyDisabledState body).position = body.position ∧
    (applyDisabledState body).velocity = body.velocity ∧
    (applyDisabledState body).angle = body.angle ∧
    (applyDisabledState body).angularVelocity = body.angularVelocity ∧
    (applyDisabledState body).isStatic = body.isStatic ∧
    (applyDisabledState body).mass = body.mass ∧
    (applyDisabledState body).inertia = body.inertia ∧
    (applyDisabledState body).density = body.density ∧
    (applyDisabledState body).friction = body.friction ∧
    (applyDisabledState body).frictionAir = body.frictionAir ∧
    (applyDisabledState body).restitution = body.restitution ∧
    (applyDisabledState body).plugin = body.plugin ∧
    (applyDisabledState body).isSleeping = true ∧
    (applyDisabledState body).collisionCategory = 0 ∧
    (applyDisabledState body).collisionMask = 0 ∧
    (∀ r, body.render = some r →
      (applyDisabledState body).render = some { r with opacity := 1 / 4 }) := by
  constructor
  · simp only [processBody]
    rw [h]
    simp
  · cases hr : body.render with
    | none => simp [applyDisabledState, sleepingSet, hr]
    | some r0 => simp [applyDisabledState, sleepingSet, hr]

/-- Witness for C5: `bodyWithoutInitialProps` has in/out seconds `[1, 2]`,
so at 30 fps with work-area start 0 it is disabled on composition frame 5
(before its in frame 30), and the per-body pass reduces to
`applyDisabledState`. -/
theorem processBody_disabled_witness :
    processBody samplePlanPos 5 4 60 50 30 0 0 bodyWithoutInitialProps =
      applyDisabledState bodyWithoutInitialProps :=
  (processBody_disabled samplePlanPos 5 4 60 50 30 0 0
    bodyWithoutInitialProps (by decide)).1

theorem getD_mem_of_lt {l : List Point} {n : ℕ} (h : n < l.length)
    (d : Point) : l.getD n d ∈ l := by
  rw [List.getD_eq_getElem?_getD, List.getElem?_eq_getElem h]
  simp only [Option.getD_some]
  exact List.getElem_mem h

theorem mem_insertSortedBy {le : Point → Point → Bool} {x a : Point} :
    ∀ {l : List Point}, a ∈ insertSortedBy le x l → a = x ∨ a ∈ l := by
  intro l
  induction l with
  | nil => intro h; simp [insertSortedBy] at h; exact Or.inl h
  | cons y ys ih =>
    intro h
    rw [insertSortedBy] at h
    split at h
    · rcases List.mem_cons.mp h with h1 | h1
      · exact Or.inl h1
      · exact Or.inr h1
    · rcases List.mem_cons.mp h with h1 | h1
      · exact Or.inr (h1 ▸ List.mem_cons_self y ys)
      · rcases ih h1 with h2 | h2
        · exact Or.inl h2
        · exact Or.inr (List.mem_cons_of_mem y h2)

theorem mem_sortPointsBy {le : Point → Point → Bool} {a : Point} :
    ∀ {l : List Point}, a ∈ sortPointsBy le l → a ∈ l := by
  intro l
  induction l with
  | nil => intro h; simpa [sortPointsBy] using h
  | cons y ys ih =>
    intro h
    rw [sortPointsBy] at h
    rcases mem_insertSortedBy h with h1 | h1
    · exact h1 ▸ List.mem_cons_self y ys
    · exact List.mem_cons_of_mem y (ih h1)

theorem grahamPop_subset (point : Point) :
    ∀ (stack : List Point), ∀ x ∈ grahamPop point stack, x ∈ stack := by
  intro stack
  induction stack with
  | nil => intro x hx; simpa [grahamPop] using hx
  | cons b rest ih =>
    intro x hx
    match rest, hx with
    | [], hx => simpa [grahamPop] using hx
    | a :: rest, hx =>
      rw [grahamPop] at hx
      split at hx
      · have hsub := ih x hx
        exact List.mem_cons_of_mem b hsub
      · exact hx

theorem mem_listSwap {l : List Point} {i j : ℕ} {x : Point}
    (hi : i < l.length) (hj : j < l.length) (hx : x ∈ listSwap l i j) :
    x ∈ l := by
  unfold listSwap at hx
  rcases List.mem_or_eq_of_mem_set hx with hx1 | hx1
  · rcases List.mem_or_eq_of_mem_set hx1 with hx2 | hx2
    · exact hx2
    · exact hx2 ▸ getD_mem_of_lt hj _
  · exact hx1 ▸ getD_mem_of_lt hi _

theorem foldl_mem_of_step (f : ℕ → ℕ → ℕ)
    (hf : ∀ st i, f st i = st ∨ f st i = i) :
    ∀ (l : List ℕ) (b : ℕ), l.foldl f b = b ∨ l.foldl f b ∈ l := by
  intro l
  induction l with
  | nil => intro b; exact Or.inl rfl
  | cons y ys ih =>
    intro b
    rw [List.foldl_cons]
    rcases ih (f b y) with h | h
    · rw [h]
      rcases hf b y with h2 | h2
      · exact Or.inl h2
      · exact Or.inr (by rw [h2]; exact List.mem_cons_self y ys)
    · exact Or.inr (List.mem_cons_of_mem y h)

theorem scanStack_subset :
    ∀ (l : List Point) (s : List Point),
    ∀ x ∈ l.foldl (fun stack point => point :: grahamPop point stack) s,
    x ∈ s ∨ x ∈ l := by
  intro l
  induction l with
  | nil => intro s x hx; exact Or.inl hx
  | cons y ys ih =>
    intro s x hx
    rw [List.foldl_cons] at hx
    rcases ih (y :: grahamPop y s) x hx with h | h
    · rcases List.mem_cons.mp h with h1 | h1
      · exact Or.inr (h1 ▸ List.mem_cons_self y ys)
      · exact Or.inl (grahamPop_subset y s x h1)
    · exact Or.inr (List.mem_cons_of_mem y h)

/-- Every vertex of the hull `computeConvexHull` returns is one of the
input points. -/
theorem computeConvexHull_subset (points : List Point) :
    ∀ x ∈ computeConvexHull points, x ∈ points := by
  intro x hx
  unfold computeConvexHull at hx
  split at hx
  · exact hx
  · have hlen : 3 ≤ points.length := by omega
    rw [List.mem_reverse] at hx
    set bottom := (List.range points.length).foldl
      (fun bottom i =>
        let pi := points.getD i (0, 0)
        let pb := points.getD bottom (0, 0)
        if pi.2 < pb.2 ∨ (pi.2 = pb.2 ∧ pi.1 < pb.1) then i else bottom)
      0 with hbdef
    have hb : bottom < points.length := by
      rcases foldl_mem_of_step
        (fun st i =>
          let pi := points.getD i (0, 0)
          let pb := points.getD st (0, 0)
          if pi.2 < pb.2 ∨ (pi.2 = pb.2 ∧ pi.1 < pb.1) then i else st)
        (fun st i => by
          by_cases hc : (points.getD i (0, 0)).2 < (points.getD st (0, 0)).2 ∨
            ((points.getD i (0, 0)).2 = (points.getD st (0, 0)).2 ∧
              (points.getD i (0, 0)).1 < (points.getD st (0, 0)).1)
          · exact Or.inr (if_pos hc)
          · exact Or.inl (if_neg hc))
        (List.range points.length) 0 with h | h
      · rw [hbdef, h]; omega
      · rw [hbdef]; exact List.mem_range.mp (hbdef ▸ h)
    have hswlen : (listSwap points 0 bottom).length = points.length := by
      unfold listSwap
      simp
    rcases scanStack_subset _ _ x hx with h | h
    · rw [List.mem_singleton] at h
      refine mem_listSwap (i := 0) (j := bottom) (by omega) hb ?_
      exact h ▸ getD_mem_of_lt (by omega) _
    · have hdrop := List.mem_of_mem_drop (mem_sortPointsBy h)
      exact mem_listSwap (i := 0) (j := bottom) (by omega) hb hdrop

/-! ### The polar-angle comparison is a strict weak order

`angleLt` compares exact polar angles: across distinct regions by the region
index, within a region by the sign of the cross product (the angle spread of
every region is less than `π`).  The lemmas below establish asymmetry,
transitivity and negative transitivity, the order facts the containment
proof for the Graham scan rests on. -/

theorem region_cases (v : Point) :
    (atan2Region v = 0 ∧ v.2 < 0) ∨
    (atan2Region v = 1 ∧ v.2 = 0 ∧ 0 ≤ v.1) ∨
    (atan2Region v = 2 ∧ 0 < v.2) ∨
    (atan2Region v = 3 ∧ v.2 = 0 ∧ v.1 < 0) := by
  unfold atan2Region
  split_ifs with h1 h2 h3
  · exact Or.inl ⟨rfl, h1⟩
  · exact Or.inr (Or.inl ⟨rfl, h2⟩)
  · exact Or.inr (Or.inr (Or.inl ⟨rfl, h3⟩))
  · push_neg at h1 h2 h3
    have hy : v.2 = 0 := le_antisymm h3 h1
    exact Or.inr (Or.inr (Or.inr ⟨rfl, hy, h2 hy⟩))

theorem cross_pos_chain {a b c : Point}
    (hab : atan2Region a = atan2Region b) (hbc : atan2Region b = atan2Region c)
    (h1 : 0 < a.1 * b.2 - a.2 * b.1) (h2 : 0 < b.1 * c.2 - b.2 * c.1) :
    0 < a.1 * c.2 - a.2 * c.1 := by
  have key : b.2 * (a.1 * c.2 - a.2 * c.1) =
      c.2 * (a.1 * b.2 - a.2 * b.1) + a.2 * (b.1 * c.2 - b.2 * c.1) := by ring
  rcases region_cases b with ⟨hb, hyb⟩ | ⟨hb, hyb, _⟩ | ⟨hb, hyb⟩ | ⟨hb, hyb, _⟩
  · have hya : a.2 < 0 := by
      rcases region_cases a with ⟨ha, hy⟩ | ⟨ha, hy, _⟩ | ⟨ha, hy⟩ | ⟨ha, hy, _⟩ <;>
        first | exact hy | omega
    have hyc : c.2 < 0 := by
      rcases region_cases c with ⟨hc, hy⟩ | ⟨hc, hy, _⟩ | ⟨hc, hy⟩ | ⟨hc, hy, _⟩ <;>
        first | exact hy | omega
    nlinarith [key, mul_neg_of_neg_of_pos hyc h1, mul_neg_of_neg_of_pos hya h2]
  · have hya : a.2 = 0 := by
      rcases region_cases a with ⟨ha, hy⟩ | ⟨ha, hy, _⟩ | ⟨ha, hy⟩ | ⟨ha, hy, _⟩ <;>
        first | exact hy | omega
    rw [hya, hyb] at h1
    norm_num at h1
  · have hya : 0 < a.2 := by
      rcases region_cases a with ⟨ha, hy⟩ | ⟨ha, hy, _⟩ | ⟨ha, hy⟩ | ⟨ha, hy, _⟩ <;>
        first | exact hy | omega
    have hyc : 0 < c.2 := by
      rcases region_cases c with ⟨hc, hy⟩ | ⟨hc, hy, _⟩ | ⟨hc, hy⟩ | ⟨hc, hy, _⟩ <;>
        first | exact hy | omega
    nlinarith [key, mul_pos hyc h1, mul_pos hya h2]
  · have hya : a.2 = 0 := by
      rcases region_cases a with ⟨ha, hy⟩ | ⟨ha, hy, _⟩ | ⟨ha, hy⟩ | ⟨ha, hy, _⟩ <;>
        first | exact hy | omega
    rw [hya, hyb] at h1
    norm_num at h1

theorem cross_nonpos_chain {a b c : Point}
    (hab : atan2Region a = atan2Region b) (hbc : atan2Region b = atan2Region c)
    (h1 : a.1 * b.2 - a.2 * b.1 ≤ 0) (h2 : b.1 * c.2 - b.2 * c.1 ≤ 0) :
    a.1 * c.2 - a.2 * c.1 ≤ 0 := by
  have key : b.2 * (a.1 * c.2 - a.2 * c.1) =
      c.2 * (a.1 * b.2 - a.2 * b.1) + a.2 * (b.1 * c.2 - b.2 * c.1) := by ring
  rcases region_cases b with ⟨hb, hyb⟩ | ⟨hb, hyb, _⟩ | ⟨hb, hyb⟩ | ⟨hb, hyb, _⟩
  · have hya : a.2 < 0 := by
      rcases region_cases a with ⟨ha, hy⟩ | ⟨ha, hy, _⟩ | ⟨ha, hy⟩ | ⟨ha, hy, _⟩ <;>
        first | exact hy | omega
    have hyc : c.2 < 0 := by
      rcases region_cases c with ⟨hc, hy⟩ | ⟨hc, hy, _⟩ | ⟨hc, hy⟩ | ⟨hc, hy, _⟩ <;>
        first | exact hy | omega
    nlinarith [key,
      mul_nonneg (by linarith : (0 : ℚ) ≤ -c.2)
        (by linarith : (0 : ℚ) ≤ -(a.1 * b.2 - a.2 * b.1)),
      mul_nonneg (by linarith : (0 : ℚ) ≤ -a.2)
        (by linarith : (0 : ℚ) ≤ -(b.1 * c.2 - b.2 * c.1))]
  · have hya : a.2 = 0 := by
      rcases region_cases a with ⟨ha, hy⟩ | ⟨ha, hy, _⟩ | ⟨ha, hy⟩ | ⟨ha, hy, _⟩ <;>
        first | exact hy | omega
    have hyc : c.2 = 0 := by
      rcases region_cases c with ⟨hc, hy⟩ | ⟨hc, hy, _⟩ | ⟨hc, hy⟩ | ⟨hc, hy, _⟩ <;>
        first | exact hy | omega
    rw [hya, hyc]
    simp
  · have hya : 0 < a.2 := by
      rcases region_cases a with ⟨ha, hy⟩ | ⟨ha, hy, _⟩ | ⟨ha, hy⟩ | ⟨ha, hy, _⟩ <;>
        first | exact hy | omega
    have hyc : 0 < c.2 := by
      rcases region_cases c with ⟨hc, hy⟩ | ⟨hc, hy, _⟩ | ⟨hc, hy⟩ | ⟨hc, hy, _⟩ <;>
        first | exact hy | omega
    nlinarith [key,
      mul_nonneg (le_of_lt hyc) (by linarith : (0 : ℚ) ≤ -(a.1 * b.2 - a.2 * b.1)),
      mul_nonneg (le_of_lt hya) (by linarith : (0 : ℚ) ≤ -(b.1 * c.2 - b.2 * c.1))]
  · have hya : a.2 = 0 := by
      rcases region_cases a with ⟨ha, hy⟩ | ⟨ha, hy, _⟩ | ⟨ha, hy⟩ | ⟨ha, hy, _⟩ <;>
        first | exact hy | omega
    have hyc : c.2 = 0 := by
      rcases region_cases c with ⟨hc, hy⟩ | ⟨hc, hy, _⟩ | ⟨hc, hy⟩ | ⟨hc, hy, _⟩ <;>
        first | exact hy | omega
    rw [hya, hyc]
    simp

theorem angleLt_asymm {a b : Point} (h : angleLt a b = true) :
    angleLt b a = false := by
  unfold angleLt at h ⊢
  by_cases hr : atan2Region a = atan2Region b
  · rw [if_neg (not_not_intro hr), decide_eq_true_eq] at h
    rw [if_neg (not_not_intro hr.symm), decide_eq_false_iff_not]
    intro hc
    linarith
  · rw [if_pos hr, decide_eq_true_eq] at h
    rw [if_pos (Ne.symm hr), decide_eq_false_iff_not]
    omega

theorem angleLt_le_aux {a b : Point} (h : angleLt a b = false) :
    atan2Region b ≤ atan2Region a ∧
      (atan2Region a = atan2Region b → a.1 * b.2 - a.2 * b.1 ≤ 0) := by
  unfold angleLt at h
  by_cases hr : atan2Region a = atan2Region b
  · rw [if_neg (not_not_intro hr), decide_eq_false_iff_not] at h
    exact ⟨le_of_eq hr.symm, fun _ => by linarith⟩
  · rw [if_pos hr, decide_eq_false_iff_not] at h
    exact ⟨by omega, fun heq => absurd heq hr⟩

theorem angleLt_false_intro {a b : Point} (h1 : atan2Region b ≤ atan2Region a)
    (h2 : atan2Region a = atan2Region b → a.1 * b.2 - a.2 * b.1 ≤ 0) :
    angleLt a b = false := by
  unfold angleLt
  by_cases hr : atan2Region a = atan2Region b
  · rw [if_neg (not_not_intro hr), decide_eq_false_iff_not]
    have := h2 hr
    intro hc
    linarith
  · rw [if_pos hr, decide_eq_false_iff_not]
    omega

theorem angleLt_true_intro {a b : Point}
    (h : atan2Region a < atan2Region b) : angleLt a b = true := by
  unfold angleLt
  rw [if_pos (by omega), decide_eq_true_eq]
  exact h

theorem angleLt_trans {a b c : Point} (h1 : angleLt a b = true)
    (h2 : angleLt b c = true) : angleLt a c = true := by
  unfold angleLt at h1 h2 ⊢
  by_cases hab : atan2Region a = atan2Region b <;>
    by_cases hbc : atan2Region b = atan2Region c
  · rw [if_neg (not_not_intro hab), decide_eq_true_eq] at h1
    rw [if_neg (not_not_intro hbc), decide_eq_true_eq] at h2
    rw [if_neg (not_not_intro (hab.trans hbc)), decide_eq_true_eq]
    exact cross_pos_chain hab hbc h1 h2
  · rw [if_pos hbc, decide_eq_true_eq] at h2
    rw [if_pos (by omega), decide_eq_true_eq]
    omega
  · rw [if_pos hab, decide_eq_true_eq] at h1
    rw [if_pos (by omega), decide_eq_true_eq]
    omega
  · rw [if_pos hab, decide_eq_true_eq] at h1
    rw [if_pos hbc, decide_eq_true_eq] at h2
    rw [if_pos (by omega), decide_eq_true_eq]
    omega

theorem angleLt_negtrans {a b c : Point} (h1 : angleLt a b = false)
    (h2 : angleLt b c = false) : angleLt a c = false := by
  obtain ⟨hr1, hc1⟩ := angleLt_le_aux h1
  obtain ⟨hr2, hc2⟩ := angleLt_le_aux h2
  refine angleLt_false_intro (le_trans hr2 hr1) ?_
  intro heq
  have hab : atan2Region a = atan2Region b := by omega
  have hbc : atan2Region b = atan2Region c := by omega
  exact cross_nonpos_chain hab hbc (hc1 hab) (hc2 hbc)

theorem angle_eq_of_not_lt {a b : Point} (h1 : angleLt a b = false)
    (h2 : angleLt b a = false) :
    atan2Region a = atan2Region b ∧ a.1 * b.2 - a.2 * b.1 = 0 := by
  obtain ⟨hr1, hc1⟩ := angleLt_le_aux h1
  obtain ⟨hr2, hc2⟩ := angleLt_le_aux h2
  have heq : atan2Region a = atan2Region b := le_antisymm hr2 hr1
  refine ⟨heq, le_antisymm (hc1 heq) ?_⟩
  have := hc2 heq.symm
  linarith

/-! ### Vectors measured from the pivot -/

/-- The vector from `p` to `a`, exactly as `computeConvexHull`'s comparator
and the region/angle analysis use it. -/
def pvec (p a : Point) : Point := (a.1 - p.1, a.2 - p.2)

/-- A vector in the closed upper half plane, excluding the negative `x`
axis: the directions a point lexicographically ≥ the pivot can have.  Such
vectors occupy `atan2` regions 1 and 2 only. -/
def upperVec (v : Point) : Prop := 0 < v.2 ∨ (v.2 = 0 ∧ 0 ≤ v.1)

theorem upperVec_region {v : Point} (h : upperVec v) :
    atan2Region v = 1 ∨ atan2Region v = 2 := by
  rcases region_cases v with ⟨h0, hy⟩ | ⟨h1, _, _⟩ | ⟨h2, _⟩ | ⟨h3, hy, hx⟩
  · rcases h with h | ⟨h, _⟩ <;> linarith
  · exact Or.inl h1
  · exact Or.inr h2
  · rcases h with h | ⟨_, h⟩ <;> linarith

theorem region_eq_one {v : Point} (h2 : v.2 = 0) (h1 : 0 ≤ v.1) :
    atan2Region v = 1 := by
  unfold atan2Region
  rw [if_neg (by linarith), if_pos ⟨h2, h1⟩]

theorem region_eq_two {v : Point} (h : 0 < v.2) : atan2Region v = 2 := by
  unfold atan2Region
  rw [if_neg (by linarith), if_neg (fun hc => by linarith [hc.1]),
    if_pos h]

theorem region_one_facts {v : Point} (h : atan2Region v = 1) :
    v.2 = 0 ∧ 0 ≤ v.1 := by
  rcases region_cases v with ⟨h0, _⟩ | ⟨h1, hy⟩ | ⟨h2, _⟩ | ⟨h3, _⟩ <;>
    first | exact hy | omega

theorem region_two_facts {v : Point} (h : atan2Region v = 2) : 0 < v.2 := by
  rcases region_cases v with ⟨h0, hy⟩ | ⟨h1, hy⟩ | ⟨h2, hy⟩ | ⟨h3, hy⟩ <;>
    first | exact hy | omega

/-- For two upper-half-plane vectors, "the angle of `v` is not past the
angle of `u`" makes the cross product `u × v` nonnegative. -/
theorem cross_nonneg_of_not_lt {u v : Point} (hu : upperVec u)
    (hv : upperVec v) (h : angleLt v u = false) :
    0 ≤ u.1 * v.2 - u.2 * v.1 := by
  obtain ⟨hr, hc⟩ := angleLt_le_aux h
  rcases upperVec_region hu with hu1 | hu2 <;>
    rcases upperVec_region hv with hv1 | hv2
  · obtain ⟨hyu, hxu⟩ := region_one_facts hu1
    obtain ⟨hyv, hxv⟩ := region_one_facts hv1
    rw [hyu, hyv]
    simp
  · obtain ⟨hyu, hxu⟩ := region_one_facts hu1
    have hyv := region_two_facts hv2
    rw [hyu]
    have := mul_nonneg hxu (le_of_lt hyv)
    linarith
  · rw [hu2, hv1] at hr
    omega
  · have := hc (hv2.trans hu2.symm)
    linarith

/-! ### The hull comparator: totality, transitivity, extraction -/

theorem hullSortLE_def (p a b : Point) :
    hullSortLE p a b =
      (if angleLt (pvec p a) (pvec p b) then true
       else if angleLt (pvec p b) (pvec p a) then false
       else decide (getSqDist a p ≤ getSqDist b p)) := rfl

theorem hullSortLE_not_lt {p a b : Point} (h : hullSortLE p a b = true) :
    angleLt (pvec p b) (pvec p a) = false := by
  rw [hullSortLE_def] at h
  cases hab : angleLt (pvec p a) (pvec p b) with
  | true => exact angleLt_asymm hab
  | false =>
    rw [hab] at h
    cases hba : angleLt (pvec p b) (pvec p a) with
    | false => rfl
    | true => rw [hba] at h; simp at h

theorem hullSortLE_dist {p a b : Point} (h : hullSortLE p a b = true)
    (hab : angleLt (pvec p a) (pvec p b) = false) :
    getSqDist a p ≤ getSqDist b p := by
  rw [hullSortLE_def, hab] at h
  cases hba : angleLt (pvec p b) (pvec p a) with
  | true => rw [hba] at h; simp at h
  | false => rw [hba] at h; simpa using h

theorem hullSortLE_total (p a b : Point) :
    hullSortLE p a b = true ∨ hullSortLE p b a = true := by
  rw [hullSortLE_def, hullSortLE_def]
  cases hab : angleLt (pvec p a) (pvec p b) with
  | true => simp
  | false =>
    cases hba : angleLt (pvec p b) (pvec p a) with
    | true => simp
    | false =>
      rcases le_total (getSqDist a p) (getSqDist b p) with h | h
      · exact Or.inl (by simp [h])
      · exact Or.inr (by simp [h])

theorem hullSortLE_trans {p a b c : Point} (h1 : hullSortLE p a b = true)
    (h2 : hullSortLE p b c = true) : hullSortLE p a c = true := by
  rw [hullSortLE_def]
  have hba := hullSortLE_not_lt h1
  have hcb := hullSortLE_not_lt h2
  have hca : angleLt (pvec p c) (pvec p a) = false := angleLt_negtrans hcb hba
  cases hac : angleLt (pvec p a) (pvec p c) with
  | true => simp
  | false =>
    have hab : angleLt (pvec p a) (pvec p b) = false := angleLt_negtrans hac hcb
    have hbc : angleLt (pvec p b) (pvec p c) = false := angleLt_negtrans hba hac
    have d1 := hullSortLE_dist h1 hab
    have d2 := hullSortLE_dist h2 hbc
    simp only [Bool.false_eq_true, if_false, hca, decide_eq_true_eq]
    exact le_trans d1 d2

/-! ### Insertion sort produces a pairwise-sorted permutation -/

theorem mem_insertSortedBy_intro {le : Point → Point → Bool} {x a : Point} :
    ∀ {l : List Point}, a = x ∨ a ∈ l → a ∈ insertSortedBy le x l := by
  intro l
  induction l with
  | nil =>
    intro h
    rcases h with h | h
    · simp [insertSortedBy, h]
    · simp at h
  | cons y ys ih =>
    intro h
    rw [insertSortedBy]
    split
    · rcases h with h | h
      · exact h ▸ List.mem_cons_self x (y :: ys)
      · exact List.mem_cons_of_mem x h
    · rcases h with h | h
      · exact List.mem_cons_of_mem y (ih (Or.inl h))
      · rcases List.mem_cons.mp h with h1 | h1
        · exact h1 ▸ List.mem_cons_self y _
        · exact List.mem_cons_of_mem y (ih (Or.inr h1))

theorem mem_sortPointsBy_intro {le : Point → Point → Bool} {a : Point} :
    ∀ {l : List Point}, a ∈ l → a ∈ sortPointsBy le l := by
  intro l
  induction l with
  | nil => intro h; simp at h
  | cons y ys ih =>
    intro h
    rw [sortPointsBy]
    rcases List.mem_cons.mp h with h1 | h1
    · exact mem_insertSortedBy_intro (Or.inl h1)
    · exact mem_insertSortedBy_intro (Or.inr (ih h1))

theorem pairwise_insertSortedBy {le : Point → Point → Bool}
    (htot : ∀ a b, le a b = true ∨ le b a = true)
    (htrans : ∀ a b c, le a b = true → le b c = true → le a c = true)
    (x : Point) :
    ∀ {l : List Point}, l.Pairwise (fun a b => le a b = true) →
      (insertSortedBy le x l).Pairwise (fun a b => le a b = true) := by
  intro l
  induction l with
  | nil => intro _; simp [insertSortedBy]
  | cons y ys ih =>
    intro hp
    obtain ⟨hy, hys⟩ := List.pairwise_cons.mp hp
    rw [insertSortedBy]
    split
    · rename_i hxy
      refine List.pairwise_cons.mpr ⟨?_, hp⟩
      intro z hz
      rcases List.mem_cons.mp hz with h1 | h1
      · exact h1 ▸ hxy
      · exact htrans x y z hxy (hy z h1)
    · rename_i hxy
      have hyx : le y x = true := by
        rcases htot x y with h | h
        · exact absurd h hxy
        · exact h
      refine List.pairwise_cons.mpr ⟨?_, ih hys⟩
      intro z hz
      rcases mem_insertSortedBy hz with h1 | h1
      · exact h1 ▸ hyx
      · exact hy z h1

theorem pairwise_sortPointsBy {le : Point → Point → Bool}
    (htot : ∀ a b, le a b = true ∨ le b a = true)
    (htrans : ∀ a b c, le a b = true → le b c = true → le a c = true) :
    ∀ (l : List Point),
      (sortPointsBy le l).Pairwise (fun a b => le a b = true) := by
  intro l
  induction l with
  | nil => simp [sortPointsBy]
  | cons y ys ih =>
    rw [sortPointsBy]
    exact pairwise_insertSortedBy htot htrans y ih

/-! ### The pivot search is a lexicographic argmin -/

/-- The order by which `computeConvexHull` selects its pivot: lowest `y`,
then lowest `x` (the fold replaces the candidate only on a strict
improvement, so the result is lexicographically ≤ every scanned point). -/
def lexLE (p q : Point) : Prop := p.2 < q.2 ∨ (p.2 = q.2 ∧ p.1 ≤ q.1)

theorem lexLE_refl (p : Point) : lexLE p p := Or.inr ⟨rfl, le_refl _⟩

theorem lexLE_trans {p q r : Point} (h1 : lexLE p q) (h2 : lexLE q r) :
    lexLE p r := by
  rcases h1 with h1 | ⟨h1, h1x⟩ <;> rcases h2 with h2 | ⟨h2, h2x⟩
  · exact Or.inl (lt_trans h1 h2)
  · exact Or.inl (h2 ▸ h1)
  · exact Or.inl (h1 ▸ h2)
  · exact Or.inr ⟨h1.trans h2, le_trans h1x h2x⟩

theorem lexLE_of_not_lt {p q : Point}
    (h : ¬(q.2 < p.2 ∨ (q.2 = p.2 ∧ q.1 < p.1))) : lexLE p q := by
  push_neg at h
  obtain ⟨h1, h2⟩ := h
  rcases lt_trichotomy p.2 q.2 with h3 | h3 | h3
  · exact Or.inl h3
  · exact Or.inr ⟨h3, by have := h2 h3.symm; linarith⟩
  · exact absurd h3 (by linarith)

theorem lexLE_of_lt {p q : Point}
    (h : p.2 < q.2 ∨ (p.2 = q.2 ∧ p.1 < q.1)) : lexLE p q := by
  rcases h with h | ⟨h1, h2⟩
  · exact Or.inl h
  · exact Or.inr ⟨h1, le_of_lt h2⟩

/-- The pivot fold of `computeConvexHull` returns an index whose point is
lexicographically ≤ the start index's point and ≤ every scanned point. -/
theorem bottomFold_le (points : List Point) :
    ∀ (l : List ℕ) (b : ℕ),
    lexLE (points.getD (l.foldl
        (fun bottom i =>
          let pi := points.getD i (0, 0)
          let pb := points.getD bottom (0, 0)
          if pi.2 < pb.2 ∨ (pi.2 = pb.2 ∧ pi.1 < pb.1) then i else bottom)
        b) (0, 0))
      (points.getD b (0, 0)) ∧
    ∀ i ∈ l, lexLE (points.getD (l.foldl
        (fun bottom i =>
          let pi := points.getD i (0, 0)
          let pb := points.getD bottom (0, 0)
          if pi.2 < pb.2 ∨ (pi.2 = pb.2 ∧ pi.1 < pb.1) then i else bottom)
        b) (0, 0))
      (points.getD i (0, 0)) := by
  intro l
  induction l with
  | nil => intro b; exact ⟨lexLE_refl _, by simp⟩
  | cons j js ih =>
    intro b
    rw [List.foldl_cons]
    by_cases hc : (points.getD j (0, 0)).2 < (points.getD b (0, 0)).2 ∨
        ((points.getD j (0, 0)).2 = (points.getD b (0, 0)).2 ∧
          (points.getD j (0, 0)).1 < (points.getD b (0, 0)).1)
    · have hstep : (let pi := points.getD j (0, 0)
          let pb := points.getD b (0, 0)
          if pi.2 < pb.2 ∨ (pi.2 = pb.2 ∧ pi.1 < pb.1) then j else b) = j := by
        simp only [if_pos hc]
      rw [hstep]
      obtain ⟨h1, h2⟩ := ih j
      refine ⟨lexLE_trans h1 (lexLE_of_lt hc), ?_⟩
      intro i hi
      rcases List.mem_cons.mp hi with h3 | h3
      · exact h3 ▸ h1
      · exact h2 i h3
    · have hstep : (let pi := points.getD j (0, 0)
          let pb := points.getD b (0, 0)
          if pi.2 < pb.2 ∨ (pi.2 = pb.2 ∧ pi.1 < pb.1) then j else b) = b := by
        simp only [if_neg hc]
      rw [hstep]
      obtain ⟨h1, h2⟩ := ih b
      refine ⟨h1, ?_⟩
      intro i hi
      rcases List.mem_cons.mp hi with h3 | h3
      · exact h3 ▸ lexLE_trans h1 (lexLE_of_not_lt hc)
      · exact h2 i h3

/-! ### Geometry of the scan: membership in the convex hull -/

theorem cross_pvec (p a b : Point) :
    (pvec p a).1 * (pvec p b).2 - (pvec p a).2 * (pvec p b).1 =
      crossProduct p a b := rfl

theorem upperVec_of_lexLE {p x : Point} (h : lexLE p x) :
    upperVec (pvec p x) := by
  rcases h with h | ⟨h1, h2⟩
  · exact Or.inl (by simp only [pvec]; linarith)
  · refine Or.inr ⟨?_, ?_⟩
    · simp only [pvec]
      linarith
    · simp only [pvec]
      linarith

theorem upperVec_pvec_self (p : Point) : upperVec (pvec p p) :=
  Or.inr ⟨sub_self _, by simp [pvec]⟩

/-- The pivot sorts before every upper-half-plane point: its own vector is
the zero vector, whose region (1) is minimal among upper vectors, and whose
distance is zero. -/
theorem hullSortLE_pivot_self {p y : Point} (hy : upperVec (pvec p y)) :
    hullSortLE p p y = true := by
  rw [hullSortLE_def]
  have hz1 : (pvec p p).1 = 0 := sub_self _
  have hz2 : (pvec p p).2 = 0 := sub_self _
  have hrp : atan2Region (pvec p p) = 1 := region_eq_one hz2 (le_of_eq hz1.symm)
  rcases upperVec_region hy with h1 | h2
  · have hlt : angleLt (pvec p p) (pvec p y) = false := by
      refine angleLt_false_intro (by omega) ?_
      intro _
      obtain ⟨hy2, _⟩ := region_one_facts h1
      rw [hz1, hz2, hy2]
      ring_nf
      exact le_refl 0
    have hlt2 : angleLt (pvec p y) (pvec p p) = false := by
      refine angleLt_false_intro (by omega) ?_
      intro _
      obtain ⟨hy2, _⟩ := region_one_facts h1
      rw [hz1, hz2, hy2]
      ring_nf
      exact le_refl 0
    rw [hlt, hlt2]
    have hd : getSqDist p p ≤ getSqDist y p := by
      unfold getSqDist
      have := sq_nonneg (y.1 - p.1)
      have := sq_nonneg (y.2 - p.2)
      nlinarith
    simp [hd]
  · have hlt : angleLt (pvec p p) (pvec p y) = true :=
      angleLt_true_intro (by omega)
    rw [hlt]
    rfl

/-- Convexity step: a point that divides the segment from `p` to `q` in
ratio `t ∈ [0, 1]` (componentwise) belongs to every convex set containing
`p` and `q`. -/
theorem mem_of_seg {p q r : Point} (t : ℚ) (ht0 : 0 ≤ t) (ht1 : t ≤ 1)
    (h1 : r.1 - p.1 = t * (q.1 - p.1)) (h2 : r.2 - p.2 = t * (q.2 - p.2))
    {c : Set Point} (hconv : Convex ℚ c) (hp : p ∈ c) (hq : q ∈ c) :
    r ∈ c := by
  have hin := hconv hp hq (by linarith : (0 : ℚ) ≤ 1 - t) ht0 (by ring)
  have heq : (1 - t) • p + t • q = r := by
    have e1 : ((1 - t) • p + t • q).1 = (1 - t) * p.1 + t * q.1 := rfl
    have e2 : ((1 - t) • p + t • q).2 = (1 - t) * p.2 + t * q.2 := rfl
    refine Prod.ext_iff.mpr ⟨?_, ?_⟩
    · rw [e1]; linear_combination -h1
    · rw [e2]; linear_combination -h2
  rwa [heq] at hin

/-- The heart of the containment argument: when the scan pops `r` because
`a → r → q` is not a strict left turn, `r` already lies in the convex hull
of the pivot, the point `a` below it and the incoming point `q`.  In the
nondegenerate case `r` has nonnegative barycentric coordinates with respect
to the triangle `p a q`; in the degenerate case all orientations vanish and
`r` lies between `p` and `q` on a common ray (by the comparator's distance
tie-break). -/
theorem mem_triangle_of_pop {p a r q : Point}
    (hup_a : upperVec (pvec p a)) (hup_r : upperVec (pvec p r))
    (hup_q : upperVec (pvec p q))
    (har : hullSortLE p a r = true) (hrq : hullSortLE p r q = true)
    (hpop : crossProduct a r q ≤ 0) :
    r ∈ convexHull ℚ ({p, a, q} : Set Point) := by
  have hconv : Convex ℚ (convexHull ℚ ({p, a, q} : Set Point)) :=
    convex_convexHull ℚ _
  have hpc : p ∈ convexHull ℚ ({p, a, q} : Set Point) :=
    subset_convexHull ℚ _ (by simp)
  have hac : a ∈ convexHull ℚ ({p, a, q} : Set Point) :=
    subset_convexHull ℚ _ (by simp)
  have hqc : q ∈ convexHull ℚ ({p, a, q} : Set Point) :=
    subset_convexHull ℚ _ (by simp)
  have hwP : 0 ≤ crossProduct a q r := by
    have he : crossProduct a q r = -crossProduct a r q := by
      unfold crossProduct; ring
    rw [he]; linarith
  have hwA : 0 ≤ crossProduct p r q := by
    have h2 := cross_nonneg_of_not_lt hup_r hup_q (hullSortLE_not_lt hrq)
    rw [cross_pvec] at h2
    exact h2
  have hwQ : 0 ≤ crossProduct p a r := by
    have h2 := cross_nonneg_of_not_lt hup_a hup_r (hullSortLE_not_lt har)
    rw [cross_pvec] at h2
    exact h2
  have hsum : crossProduct p a q =
      crossProduct a q r + crossProduct p r q + crossProduct p a r := by
    unfold crossProduct; ring
  by_cases hD : 0 < crossProduct p a q
  · -- nondegenerate triangle: explicit barycentric decomposition
    have hDne : crossProduct p a q ≠ 0 := ne_of_gt hD
    have hcomb1 : crossProduct p a q * r.1 =
        crossProduct a q r * p.1 + crossProduct p r q * a.1 +
          crossProduct p a r * q.1 := by
      unfold crossProduct; ring
    have hcomb2 : crossProduct p a q * r.2 =
        crossProduct a q r * p.2 + crossProduct p r q * a.2 +
          crossProduct p a r * q.2 := by
      unfold crossProduct; ring
    by_cases hAQ : crossProduct p r q + crossProduct p a r = 0
    · -- the a/q weights vanish: r coincides with the pivot
      have hA0 : crossProduct p r q = 0 := by linarith
      have hQ0 : crossProduct p a r = 0 := by linarith
      have hDP : crossProduct p a q = crossProduct a q r := by linarith
      have hr1 : r.1 = p.1 := by
        rw [hA0, hQ0, ← hDP] at hcomb1
        simp only [zero_mul, add_zero] at hcomb1
        exact mul_left_cancel₀ hDne hcomb1
      have hr2 : r.2 = p.2 := by
        rw [hA0, hQ0, ← hDP] at hcomb2
        simp only [zero_mul, add_zero] at hcomb2
        exact mul_left_cancel₀ hDne hcomb2
      have : r = p := Prod.ext_iff.mpr ⟨hr1, hr2⟩
      rw [this]
      exact hpc
    · have hAQpos : 0 < crossProduct p r q + crossProduct p a r :=
        lt_of_le_of_ne (by linarith) (Ne.symm hAQ)
      have hm : ((crossProduct p r q * a.1 + crossProduct p a r * q.1) /
            (crossProduct p r q + crossProduct p a r),
          (crossProduct p r q * a.2 + crossProduct p a r * q.2) /
            (crossProduct p r q + crossProduct p a r)) ∈
          convexHull ℚ ({p, a, q} : Set Point) := by
        refine mem_of_seg (crossProduct p a r /
            (crossProduct p r q + crossProduct p a r))
          (div_nonneg hwQ (le_of_lt hAQpos))
          (by rw [div_le_one hAQpos]; linarith) ?_ ?_ hconv hac hqc
        · show (crossProduct p r q * a.1 + crossProduct p a r * q.1) /
              (crossProduct p r q + crossProduct p a r) - a.1 = _
          field_simp
          ring
        · show (crossProduct p r q * a.2 + crossProduct p a r * q.2) /
              (crossProduct p r q + crossProduct p a r) - a.2 = _
          field_simp
          ring
      refine mem_of_seg ((crossProduct p r q + crossProduct p a r) /
          crossProduct p a q)
        (div_nonneg (le_of_lt hAQpos) (le_of_lt hD))
        (by rw [div_le_one hD]; linarith) ?_ ?_ hconv hpc hm
      · show r.1 - p.1 = _ * (_ / _ - p.1)
        field_simp [hDne, hAQ]
        linear_combination (crossProduct p r q + crossProduct p a r) * hcomb1 -
          (crossProduct p r q + crossProduct p a r) * p.1 * hsum
      · show r.2 - p.2 = _ * (_ / _ - p.2)
        field_simp [hDne, hAQ]
        linear_combination (crossProduct p r q + crossProduct p a r) * hcomb2 -
          (crossProduct p r q + crossProduct p a r) * p.2 * hsum
  · -- degenerate: all three orientations vanish; r is on the segment p–q
    have hDle : crossProduct p a q ≤ 0 := not_lt.mp hD
    have hA0 : crossProduct p r q = 0 := by linarith
    have hcr : (r.1 - p.1) * (q.2 - p.2) - (r.2 - p.2) * (q.1 - p.1) = 0 := by
      have : crossProduct p r q =
          (r.1 - p.1) * (q.2 - p.2) - (r.2 - p.2) * (q.1 - p.1) := rfl
      linarith [this ▸ hA0]
    rcases upperVec_region hup_r with hr1 | hr2 <;>
      rcases upperVec_region hup_q with hq1 | hq2
    · -- both on the pivot's horizontal ray
      obtain ⟨hyr, hxr⟩ := region_one_facts hr1
      obtain ⟨hyq, hxq⟩ := region_one_facts hq1
      simp only [pvec] at hyr hxr hyq hxq
      have hltf : angleLt (pvec p r) (pvec p q) = false := by
        refine angleLt_false_intro (by omega) (fun _ => ?_)
        show (pvec p r).1 * (pvec p q).2 - (pvec p r).2 * (pvec p q).1 ≤ 0
        simp only [pvec]
        rw [hyr, hyq]
        simp
      have hd := hullSortLE_dist hrq hltf
      unfold getSqDist at hd
      rw [hyr, hyq] at hd
      simp only [mul_zero, add_zero] at hd
      by_cases hq0 : q.1 - p.1 = 0
      · rw [hq0] at hd
        rw [mul_zero] at hd
        have h4 : (r.1 - p.1) * (r.1 - p.1) = 0 :=
          le_antisymm hd (mul_self_nonneg _)
        have h5 : r.1 - p.1 = 0 := mul_self_eq_zero.mp h4
        have : r = p := Prod.ext_iff.mpr ⟨by linarith, by linarith⟩
        rw [this]
        exact hpc
      · have hq0p : 0 < q.1 - p.1 := lt_of_le_of_ne hxq (Ne.symm hq0)
        have hle : r.1 - p.1 ≤ q.1 - p.1 := by
          nlinarith [hd, hxr, hq0p]
        refine mem_of_seg ((r.1 - p.1) / (q.1 - p.1))
          (div_nonneg hxr (le_of_lt hq0p))
          (by rw [div_le_one hq0p]; exact hle) ?_ ?_ hconv hpc hqc
        · field_simp
        · rw [hyr, hyq]
          simp
    · -- r on the horizontal ray, q strictly above: r must be the pivot
      obtain ⟨hyr, hxr⟩ := region_one_facts hr1
      have hyq := region_two_facts hq2
      simp only [pvec] at hyr hxr hyq
      have hx0 : r.1 - p.1 = 0 := by
        have : (r.1 - p.1) * (q.2 - p.2) = 0 := by
          rw [hyr] at hcr
          linarith
        rcases mul_eq_zero.mp this with h | h
        · exact h
        · linarith
      have : r = p := Prod.ext_iff.mpr ⟨by linarith, by linarith⟩
      rw [this]
      exact hpc
    · -- r strictly above, q on the horizontal ray: contradicts the sort order
      exfalso
      have h1 := hullSortLE_not_lt hrq
      rw [angleLt_true_intro (by omega)] at h1
      exact Bool.noConfusion h1
    · -- both strictly above: common ray through the pivot
      have hyr := region_two_facts hr2
      have hyq := region_two_facts hq2
      simp only [pvec] at hyr hyq
      have hltf : angleLt (pvec p r) (pvec p q) = false := by
        refine angleLt_false_intro (by omega) (fun _ => ?_)
        show (pvec p r).1 * (pvec p q).2 - (pvec p r).2 * (pvec p q).1 ≤ 0
        simp only [pvec]
        linarith [hcr]
      have hd := hullSortLE_dist hrq hltf
      unfold getSqDist at hd
      have hsq : (r.1 - p.1) * (q.2 - p.2) = (r.2 - p.2) * (q.1 - p.1) := by
        linarith [hcr]
      have hS : 0 < (q.1 - p.1) * (q.1 - p.1) + (q.2 - p.2) * (q.2 - p.2) := by
        nlinarith [mul_pos hyq hyq, mul_self_nonneg (q.1 - p.1)]
      have h6 : (r.2 - p.2) * (r.2 - p.2) ≤ (q.2 - p.2) * (q.2 - p.2) := by
        have h5 : ((r.1 - p.1) * (r.1 - p.1) + (r.2 - p.2) * (r.2 - p.2)) *
            ((q.2 - p.2) * (q.2 - p.2)) ≤
            ((q.1 - p.1) * (q.1 - p.1) + (q.2 - p.2) * (q.2 - p.2)) *
            ((q.2 - p.2) * (q.2 - p.2)) :=
          mul_le_mul_of_nonneg_right hd (mul_self_nonneg _)
        have hsq2 : (r.1 - p.1) * (r.1 - p.1) * ((q.2 - p.2) * (q.2 - p.2)) =
            (r.2 - p.2) * (r.2 - p.2) * ((q.1 - p.1) * (q.1 - p.1)) := by
          linear_combination
            ((r.1 - p.1) * (q.2 - p.2) + (r.2 - p.2) * (q.1 - p.1)) * hsq
        have h7 : (r.2 - p.2) * (r.2 - p.2) *
            ((q.1 - p.1) * (q.1 - p.1) + (q.2 - p.2) * (q.2 - p.2)) ≤
            (q.2 - p.2) * (q.2 - p.2) *
            ((q.1 - p.1) * (q.1 - p.1) + (q.2 - p.2) * (q.2 - p.2)) := by
          linarith [h5, hsq2]
        by_contra hgt
        push_neg at hgt
        have h8 := mul_pos (sub_pos.mpr hgt) hS
        linarith [h7, h8]
      have hle : r.2 - p.2 ≤ q.2 - p.2 := by
        nlinarith [h6, hyr, hyq]
      refine mem_of_seg ((r.2 - p.2) / (q.2 - p.2))
        (div_nonneg (le_of_lt hyr) (le_of_lt hyq))
        (by rw [div_le_one hyq]; exact hle) ?_ ?_ hconv hpc hqc
      · rw [div_mul_eq_mul_div, eq_div_iff (ne_of_gt hyq)]
        linear_combination hsq
      · field_simp

/-! ### The pop loop preserves coverage of the stack -/

theorem grahamPop_suffix (point : Point) :
    ∀ (S : List Point), (grahamPop point S).IsSuffix S := by
  intro S
  induction S with
  | nil => simp [grahamPop]
  | cons b rest ih =>
    cases rest with
    | nil => simp [grahamPop]
    | cons a rest2 =>
      rw [grahamPop]
      split
      · exact ih.trans (List.suffix_cons b (a :: rest2))
      · exact List.suffix_refl _

theorem grahamPop_ne_nil (point : Point) :
    ∀ {S : List Point}, S ≠ [] → grahamPop point S ≠ [] := by
  intro S
  induction S with
  | nil => intro h; exact absurd rfl h
  | cons b rest ih =>
    intro _
    cases rest with
    | nil => simp [grahamPop]
    | cons a rest2 =>
      rw [grahamPop]
      split
      · exact ih (List.cons_ne_nil a rest2)
      · exact List.cons_ne_nil b _

theorem mem_of_getLast?_eq :
    ∀ {l : List Point} {x : Point}, l.getLast? = some x → x ∈ l := by
  intro l
  induction l with
  | nil => intro x h; simp at h
  | cons b rest ih =>
    intro x h
    cases rest with
    | nil =>
      simp only [List.getLast?_singleton, Option.some.injEq] at h
      exact h ▸ List.mem_singleton_self b
    | cons a rest2 =>
      rw [List.getLast?_cons_cons] at h
      exact List.mem_cons_of_mem b (ih h)

theorem getLast?_of_suffix {l t : List Point} (h : t.IsSuffix l)
    (ht : t ≠ []) : t.getLast? = l.getLast? := by
  obtain ⟨pre, rfl⟩ := h
  exact (List.getLast?_append_of_ne_nil pre ht).symm

/-- One pop phase keeps every discarded stack point inside the convex hull
of the incoming point and the surviving stack. -/
theorem grahamPop_hull (pivot q : Point) :
    ∀ (S : List Point),
    S.Pairwise (fun x y => hullSortLE pivot y x = true) →
    (∀ x ∈ S, hullSortLE pivot x q = true) →
    (∀ x ∈ S, upperVec (pvec pivot x)) →
    upperVec (pvec pivot q) →
    S.getLast? = some pivot →
    ∀ x ∈ S, x ∈ convexHull ℚ {y | y ∈ q :: grahamPop q S} := by
  intro S
  induction S with
  | nil => intro _ _ _ _ _ x hx; simp at hx
  | cons r rest ih =>
    intro hpair hq hup hupq hlast x hx
    cases rest with
    | nil =>
      rw [List.mem_singleton] at hx
      refine subset_convexHull ℚ _ ?_
      show x ∈ q :: grahamPop q [r]
      rw [hx]
      exact List.mem_cons_of_mem q (by simp [grahamPop])
    | cons a rest2 =>
      rw [grahamPop]
      by_cases hpop : crossProduct a r q ≤ 0
      · rw [if_pos hpop]
        have hlast2 : (a :: rest2).getLast? = some pivot := by
          rw [List.getLast?_cons_cons] at hlast
          exact hlast
        have hrec := ih (List.pairwise_cons.mp hpair).2
          (fun z hz => hq z (List.mem_cons_of_mem r hz))
          (fun z hz => hup z (List.mem_cons_of_mem r hz)) hupq hlast2
        rcases List.mem_cons.mp hx with hx1 | hx1
        · -- x is the popped top: triangle argument, then hull monotonicity
          subst hx1
          have hpiv_mem : pivot ∈ a :: rest2 := mem_of_getLast?_eq hlast2
          have htri : x ∈ convexHull ℚ ({pivot, a, q} : Set Point) :=
            mem_triangle_of_pop
              (hup a (List.mem_cons_of_mem x (List.mem_cons_self a rest2)))
              (hup x (List.mem_cons_self x _)) hupq
              ((List.pairwise_cons.mp hpair).1 a (List.mem_cons_self a rest2))
              (hq x (List.mem_cons_self x _)) hpop
          have hsub : ({pivot, a, q} : Set Point) ⊆
              convexHull ℚ {y | y ∈ q :: grahamPop q (a :: rest2)} := by
            intro z hz
            rcases hz with hz | hz | hz
            · subst hz
              exact hrec _ hpiv_mem
            · subst hz
              exact hrec _ (List.mem_cons_self _ rest2)
            · subst hz
              exact subset_convexHull ℚ _ (List.mem_cons_self _ _)
          exact convexHull_min hsub (convex_convexHull ℚ _) htri
        · exact hrec x hx1
      · rw [if_neg hpop]
        refine subset_convexHull ℚ _ ?_
        show x ∈ q :: r :: a :: rest2
        exact List.mem_cons_of_mem q hx

/-- The whole scan covers everything: every initial-stack point and every
sorted point ends up in the convex hull of the final (reversed) stack. -/
theorem grahamScan_covers (pivot : Point) :
    ∀ (l : List Point) (S : List Point),
    l.Pairwise (fun x y => hullSortLE pivot x y = true) →
    S.Pairwise (fun x y => hullSortLE pivot y x = true) →
    (∀ x ∈ S, ∀ y ∈ l, hullSortLE pivot x y = true) →
    (∀ x ∈ S, upperVec (pvec pivot x)) →
    (∀ y ∈ l, upperVec (pvec pivot y)) →
    S.getLast? = some pivot →
    ∀ x, x ∈ S ∨ x ∈ l →
      x ∈ convexHull ℚ
        {y | y ∈ (l.foldl (fun stack point => point :: grahamPop point stack)
          S).reverse} := by
  intro l
  induction l with
  | nil =>
    intro S _ _ _ _ _ _ x hx
    rcases hx with hx | hx
    · refine subset_convexHull ℚ _ ?_
      simp only [List.foldl_nil, Set.mem_setOf_eq, List.mem_reverse]
      exact hx
    · simp at hx
  | cons q l2 ih =>
    intro S hlpair hspair hsl hupS hupl hlast x hx
    rw [List.foldl_cons]
    have hq : ∀ z ∈ S, hullSortLE pivot z q = true :=
      fun z hz => hsl z hz q (List.mem_cons_self q l2)
    have hupq : upperVec (pvec pivot q) := hupl q (List.mem_cons_self q l2)
    have hSne : S ≠ [] := by
      intro h
      rw [h] at hlast
      simp at hlast
    have hsub : ∀ z ∈ grahamPop q S, z ∈ S := grahamPop_subset q S
    have hpair2 : (q :: grahamPop q S).Pairwise
        (fun x y => hullSortLE pivot y x = true) := by
      refine List.pairwise_cons.mpr ⟨?_, ?_⟩
      · exact fun z hz => hq z (hsub z hz)
      · exact List.Pairwise.sublist (grahamPop_suffix q S).sublist hspair
    have hsl2 : ∀ z ∈ q :: grahamPop q S, ∀ y ∈ l2,
        hullSortLE pivot z y = true := by
      intro z hz y hy
      rcases List.mem_cons.mp hz with hz1 | hz1
      · exact hz1 ▸ (List.pairwise_cons.mp hlpair).1 y hy
      · exact hsl z (hsub z hz1) y (List.mem_cons_of_mem q hy)
    have hupS2 : ∀ z ∈ q :: grahamPop q S, upperVec (pvec pivot z) := by
      intro z hz
      rcases List.mem_cons.mp hz with hz1 | hz1
      · exact hz1 ▸ hupq
      · exact hupS z (hsub z hz1)
    have hlast2 : (q :: grahamPop q S).getLast? = some pivot := by
      have hne := grahamPop_ne_nil q hSne
      cases hgp : grahamPop q S with
      | nil => exact absurd hgp hne
      | cons w t =>
        rw [List.getLast?_cons_cons, ← hgp,
          getLast?_of_suffix (grahamPop_suffix q S) hne]
        exact hlast
    have hrec := ih (q :: grahamPop q S) (List.pairwise_cons.mp hlpair).2
      hpair2 hsl2 hupS2 (fun y hy => hupl y (List.mem_cons_of_mem q hy))
      hlast2
    rcases hx with hx | hx
    · have hcov := grahamPop_hull pivot q S hspair hq hupS hupq hlast x hx
      refine convexHull_min ?_ (convex_convexHull ℚ _) hcov
      intro z hz
      exact hrec z (Or.inl hz)
    · rcases List.mem_cons.mp hx with rfl | hx1
      · exact hrec x (Or.inl (List.mem_cons_self x _))
      · exact hrec x (Or.inr hx1)

/-! ### Assembly: `computeConvexHull` covers its input -/

theorem listSwap_getD (l : List Point) (j k : ℕ) (hj : j < l.length)
    (hk : k < l.length) :
    (listSwap l 0 j).getD k (0, 0) =
      if k = j then l.getD 0 (0, 0)
      else if k = 0 then l.getD j (0, 0)
      else l.getD k (0, 0) := by
  unfold listSwap
  rw [List.getD_eq_getElem?_getD]
  by_cases hkj : k = j
  · subst hkj
    rw [List.getElem?_set_eq_of_lt _ (by simpa using hk), if_pos rfl]
    simp [List.getD_eq_getElem?_getD]
  · rw [List.getElem?_set_ne (Ne.symm hkj), if_neg hkj]
    by_cases hk0 : k = 0
    · subst hk0
      rw [List.getElem?_set_eq_of_lt _ hk, if_pos rfl]
      simp [List.getD_eq_getElem?_getD]
    · rw [List.getElem?_set_ne (Ne.symm hk0), if_neg hk0,
        List.getD_eq_getElem?_getD]

theorem getD_drop_one (l : List Point) (k : ℕ) (hk : 1 ≤ k) :
    (l.drop 1).getD (k - 1) (0, 0) = l.getD k (0, 0) := by
  rw [List.getD_eq_getElem?_getD, List.getD_eq_getElem?_getD,
    List.getElem?_drop]
  congr 2
  omega

/-- Every input point of `computeConvexHull` lies in the convex hull (in the
standard `convexHull ℚ` sense) of the vertex list the function returns: the
scan only ever discards points that are already covered by the pivot, the
stack and the incoming point. -/
theorem computeConvexHull_contains (points : List Point) :
    ∀ x ∈ points, x ∈ convexHull ℚ {y | y ∈ computeConvexHull points} := by
  intro x hx
  rw [computeConvexHull]
  by_cases hlen : points.length < 3
  · rw [if_pos hlen]
    exact subset_convexHull ℚ _ hx
  · rw [if_neg hlen]
    set bottom := (List.range points.length).foldl
      (fun bottom i =>
        let pi := points.getD i (0, 0)
        let pb := points.getD bottom (0, 0)
        if pi.2 < pb.2 ∨ (pi.2 = pb.2 ∧ pi.1 < pb.1) then i else bottom)
      0 with hbdef
    have hb : bottom < points.length := by
      rcases foldl_mem_of_step
        (fun st i =>
          let pi := points.getD i (0, 0)
          let pb := points.getD st (0, 0)
          if pi.2 < pb.2 ∨ (pi.2 = pb.2 ∧ pi.1 < pb.1) then i else st)
        (fun st i => by
          by_cases hc : (points.getD i (0, 0)).2 < (points.getD st (0, 0)).2 ∨
            ((points.getD i (0, 0)).2 = (points.getD st (0, 0)).2 ∧
              (points.getD i (0, 0)).1 < (points.getD st (0, 0)).1)
          · exact Or.inr (if_pos hc)
          · exact Or.inl (if_neg hc))
        (List.range points.length) 0 with h | h
      · rw [hbdef, h]; omega
      · rw [hbdef]; exact List.mem_range.mp (hbdef ▸ h)
    have h0len : 0 < points.length := by omega
    have hswlen : (listSwap points 0 bottom).length = points.length := by
      unfold listSwap
      simp
    have hpiv : (listSwap points 0 bottom).getD 0 (0, 0) =
        points.getD bottom (0, 0) := by
      rw [listSwap_getD points bottom 0 hb h0len]
      by_cases h0 : (0 : ℕ) = bottom
      · rw [if_pos h0, ← h0]
      · rw [if_neg h0, if_pos rfl]
    have hminmem : ∀ y ∈ points, lexLE (points.getD bottom (0, 0)) y := by
      intro y hy
      obtain ⟨i, hi, hgi⟩ := List.mem_iff_getElem.mp hy
      have h2 := (bottomFold_le points (List.range points.length) 0).2
        i (List.mem_range.mpr hi)
      rw [← hbdef] at h2
      rwa [List.getD_eq_getElem points (0, 0) hi, hgi] at h2
    have hupAll : ∀ y ∈ listSwap points 0 bottom,
        upperVec (pvec ((listSwap points 0 bottom).getD 0 (0, 0)) y) := by
      intro y hy
      rw [hpiv]
      exact upperVec_of_lexLE
        (hminmem y (mem_listSwap (i := 0) (j := bottom) h0len hb hy))
    have hupSorted : ∀ y ∈ sortPointsBy
        (hullSortLE ((listSwap points 0 bottom).getD 0 (0, 0)))
        ((listSwap points 0 bottom).drop 1),
        upperVec (pvec ((listSwap points 0 bottom).getD 0 (0, 0)) y) :=
      fun y hy => hupAll y (List.mem_of_mem_drop (mem_sortPointsBy hy))
    refine grahamScan_covers _ _ _
      (pairwise_sortPointsBy
        (fun a b => hullSortLE_total _ a b)
        (fun a b c h1 h2 => hullSortLE_trans h1 h2) _)
      (List.pairwise_singleton _ _)
      ?_ ?_ hupSorted rfl x ?_
    · intro z hz y hy
      rw [List.mem_singleton] at hz
      subst hz
      exact hullSortLE_pivot_self (hupSorted y hy)
    · intro z hz
      rw [List.mem_singleton] at hz
      subst hz
      exact upperVec_pvec_self _
    · -- x sits either at the pivot slot or among the sorted points
      obtain ⟨i, hi, hgi⟩ := List.mem_iff_getElem.mp hx
      by_cases hib : i = bottom
      · subst hib
        refine Or.inl (List.mem_singleton.mpr ?_)
        show x = (listSwap points 0 bottom).getD 0 (0, 0)
        rw [hpiv, List.getD_eq_getElem points (0, 0) hb]
        exact hgi.symm
      · have hk : (listSwap points 0 bottom).getD (if i = 0 then bottom else i)
            (0, 0) = x := by
          by_cases hi0 : i = 0
          · subst hi0
            rw [if_pos rfl, listSwap_getD points bottom bottom hb hb,
              if_pos rfl, List.getD_eq_getElem points (0, 0) h0len]
            exact hgi
          · rw [if_neg hi0, listSwap_getD points bottom i hb hi,
              if_neg hib, if_neg hi0, List.getD_eq_getElem points (0, 0) hi]
            exact hgi
        have hk1 : 1 ≤ (if i = 0 then bottom else i) := by
          by_cases hi0 : i = 0
          · rw [if_pos hi0]; omega
          · rw [if_neg hi0]; omega
        have hklt : (if i = 0 then bottom else i) < points.length := by
          by_cases hi0 : i = 0
          · rw [if_pos hi0]; omega
          · rw [if_neg hi0]; omega
        refine Or.inr (mem_sortPointsBy_intro ?_)
        have hdrop := getD_drop_one (listSwap points 0 bottom)
          (if i = 0 then bottom else i) hk1
        rw [hk] at hdrop
        rw [← hdrop]
        refine getD_mem_of_lt ?_ _
        rw [List.length_drop, hswlen]
        omega

/-- The non-simple bowtie-with-bump input of the C8 counterexample: the
tolerance-4 simplification drops the bump `(12, 5)`, the remaining four
points form a self-intersecting bowtie, and the returned hull is the square
— which does not contain the dropped input point. -/
def bowtieWithBump : List Point := [(0, 0), (0, 10), (10, 0), (12, 5), (10, 10)]

/-- Counterexample to C8 as stated: `bowtieWithBump` has five finite points
and is not simple after simplification and winding, the decomposition
returns exactly one hull part, but the input point `(12, 5)` lies strictly
outside that part (it is strictly right of the hull edge from `(10, 0)` to
`(10, 10)`), so not every input point lies inside or on the single part. -/
theorem decomposeConcaveShape_containment_cex :
    polygonIsSimple (decompPointsToUse bowtieWithBump) = false ∧
    decomposeConcaveShape (fun _ => []) bowtieWithBump =
      [[(0, 0), (10, 0), (10, 10), (0, 10)]] ∧
    (12, 5) ∈ bowtieWithBump ∧
    insideOrOnConvexCCW [(0, 0), (10, 0), (10, 10), (0, 10)] (12, 5) =
      false := by
  refine ⟨by decide, by decide, by decide, by decide⟩

/-- C8 (amended): for every input of at least three points that is not a
simple polygon after the tolerance-4 simplification and forced
counterclockwise winding, `decomposeConcaveShape` returns exactly one part —
the convex hull `computeConvexHull` computes from the simplified,
winding-forced point list — whenever that hull passes the ≥ 3-point
validation, and nothing otherwise; this holds for every value of the
`quickDecomp` parameter, which the non-simple branch never consults.  Every
simplified, winding-forced point lies in the convex hull of the returned
part's vertices (and those vertices are all such points), but input points
dropped by the simplification may lie outside the returned part. -/
theorem decomposeConcaveShape_hullBranch
    (quickDecomp : List Point → List (List Point)) (vertices : List Point)
    (h3 : 3 ≤ vertices.length)
    (hns : polygonIsSimple (decompPointsToUse vertices) = false) :
    decomposeConcaveShape quickDecomp vertices =
      (if 3 ≤ (computeConvexHull (decompPointsToUse vertices)).length then
        [computeConvexHull (decompPointsToUse vertices)]
      else []) ∧
    (∀ p ∈ computeConvexHull (decompPointsToUse vertices),
      p ∈ decompPointsToUse vertices) ∧
    (∀ p ∈ decompPointsToUse vertices,
      p ∈ convexHull ℚ
        {y | y ∈ computeConvexHull (decompPointsToUse vertices)}) := by
  refine ⟨?_, ?_, ?_⟩
  · unfold decomposeConcaveShape
    rw [if_neg (by omega)]
    simp only [hns, Bool.false_eq_true, if_false]
    by_cases hh : (computeConvexHull (decompPointsToUse vertices)).length < 3
    · rw [if_pos hh, if_neg (by omega)]
    · rw [if_neg hh, if_pos (by omega)]
  · exact computeConvexHull_subset (decompPointsToUse vertices)
  · exact computeConvexHull_contains (decompPointsToUse vertices)

/-- Witness for C8 (amended): on the bowtie-with-bump input the hull branch
returns exactly the square hull of the simplified points. -/
theorem decomposeConcaveShape_hullBranch_witness :
    (decomposeConcaveShape (fun _ => []) bowtieWithBump =
      (if 3 ≤ (computeConvexHull (decompPointsToUse bowtieWithBump)).length
       then [computeConvexHull (decompPointsToUse bowtieWithBump)]
       else [])) ∧
    (∀ p ∈ computeConvexHull (decompPointsToUse bowtieWithBump),
      p ∈ decompPointsToUse bowtieWithBump) ∧
    (∀ p ∈ decompPointsToUse bowtieWithBump,
      p ∈ convexHull ℚ
        {y | y ∈ computeConvexHull (decompPointsToUse bowtieWithBump)}) :=
  decomposeConcaveShape_hullBranch (fun _ => []) bowtieWithBump (by decide)
    (by decide)

theorem jsRound_nonneg {a : ℚ} (h : 0 < a) : 0 ≤ jsRound a := by
  have : (0 : ℤ) = ⌊(0 : ℚ)⌋ := by norm_num
  rw [jsRound, this]
  exact Int.floor_le_floor (by linarith)

theorem jsRound_add_one_le {a r : ℚ} (hr : 1 ≤ r) :
    jsRound a + 1 ≤ jsRound (a + r) := by
  rw [jsRound, jsRound, ← Int.floor_add_one]
  exact Int.floor_le_floor (by linarith)

theorem jsRound_mono {a b : ℚ} (h : a ≤ b) : jsRound a ≤ jsRound b :=
  Int.floor_le_floor (by linarith)

/-- The behaviour of the sampling fold over a block of physics frames:
starting at composition frame `n` with the expected physics frame of `n` not
yet passed, and with enough frames left to reach the expected physics frame
of `expectedCompFrames`, the fold captures composition frames
`n, n+1, …, expectedCompFrames` exactly once each, in order, at times
`w0 + m / compFramerate` — provided the sampling ratio is at least 1, which
makes the expected physics frames strictly increasing. -/
theorem simSampleStep_fold (E : ℤ) (r w0 F : ℚ) (hr : 1 ≤ r) :
    ∀ (k a n : ℕ) (acc : List (ℕ × ℚ)),
    1 ≤ n → (n : ℤ) ≤ E + 1 →
    ((n : ℤ) ≤ E → ((a : ℤ) ≤ jsRound ((n : ℚ) * r) ∧
      jsRound ((E : ℚ) * r) < (a : ℤ) + (k : ℤ))) →
    (List.range' a k).foldl (simSampleStep E r w0 F) (n, acc) =
      ((E + 1).toNat,
        acc ++ (List.range' n ((E + 1 - (n : ℤ)).toNat)).map
          (fun m => ((m, w0 + (m : ℚ) / F) : ℕ × ℚ))) := by
  intro k
  induction k with
  | zero =>
    intro a n acc hn1 hnE1 hinv
    have hn : (n : ℤ) = E + 1 := by
      by_contra hne
      have hnE : (n : ℤ) ≤ E := by omega
      obtain ⟨ha, hk⟩ := hinv hnE
      have hmono : jsRound ((n : ℚ) * r) ≤ jsRound ((E : ℚ) * r) := by
        apply jsRound_mono
        have h1 : (n : ℚ) ≤ (E : ℚ) := by exact_mod_cast hnE
        nlinarith
      omega
    have h0 : (E + 1 - (n : ℤ)).toNat = 0 := by omega
    have h1 : (E + 1).toNat = n := by omega
    simp [h0, h1]
  | succ k ih =>
    intro a n acc hn1 hnE1 hinv
    rw [List.range'_succ, List.foldl_cons]
    by_cases hnE : (n : ℤ) ≤ E
    · obtain ⟨ha, hk⟩ := hinv hnE
      by_cases hcap : (a : ℤ) = jsRound ((n : ℚ) * r)
      · have hstep : simSampleStep E r w0 F (n, acc) a =
            (n + 1, acc ++ [(n, w0 + (n : ℚ) / F)]) := by
          simp [simSampleStep, hcap, hnE]
        rw [hstep]
        have hg : jsRound ((n : ℚ) * r) + 1 ≤ jsRound (((n : ℚ) + 1) * r) := by
          have harg : ((n : ℚ) + 1) * r = (n : ℚ) * r + r := by ring
          rw [harg]
          exact jsRound_add_one_le hr
        rw [ih (a + 1) (n + 1) (acc ++ [(n, w0 + (n : ℚ) / F)]) (by omega)
          (by omega) (fun _ => ⟨by push_cast; omega, by push_cast at hk ⊢; omega⟩)]
        have hcnt : (E + 1 - (n : ℤ)).toNat = ((E + 1 - ((n + 1 : ℕ) : ℤ)).toNat) + 1 := by
          omega
        rw [hcnt, List.range'_succ, List.map_cons]
        simp
      · have hstep : simSampleStep E r w0 F (n, acc) a = (n, acc) := by
          simp [simSampleStep, hcap]
        rw [hstep]
        exact ih (a + 1) n acc hn1 hnE1
          (fun _ => ⟨by push_cast; omega, by push_cast at hk ⊢; omega⟩)
    · have hstep : simSampleStep E r w0 F (n, acc) a = (n, acc) := by
        simp [simSampleStep, hnE]
      rw [hstep]
      exact ih (a + 1) n acc hn1 hnE1 (fun h => absurd h hnE)

/-- Counterexample to C1 as stated: at composition framerate 200 over a
one-second work area starting at 0, the work area spans composition frames
`0 … 200`, but the published schedule captures only frames 0, 1 and 2 (once
the sampling ratio `50/200` makes two consecutive expected physics frames
round to the same integer, the equality test can never fire again), so
almost every composition frame is skipped. -/
theorem calculateAllFramesSchedule_cex :
    jsRound (((1 : ℚ) - 0) * 200) = 200 ∧
    (calculateAllFramesSchedule 0 1 200).map Prod.fst = [0, 1, 2] := by
  constructor
  · norm_num [jsRound]
  · decide

/-- C1 (amended): whenever the composition framerate is positive, at most
the simulation rate 50, the work area has positive duration, and the
expected physics frame of the final composition frame fits within the
simulated physics frames
(`jsRound (expectedCompFrames · ratio) ≤ ⌈duration · 50⌉` — forced by the
counterexample, where it fails), the published schedule contains exactly one
snapshot for each composition frame `0 … expectedCompFrames` of the work
area, in order, with the snapshot of frame `n` at time
`w0 + n / compFramerate` — times strictly increasing in steps of one
composition-frame duration, no frame skipped, none captured twice. -/
theorem calculateAllFramesSchedule_complete (w0 w1 compFramerate : ℚ)
    (hF : 0 < compFramerate) (hF50 : compFramerate ≤ 50)
    (hd : 0 < w1 - w0)
    (hcover : jsRound (((jsRound ((w1 - w0) * compFramerate) : ℤ) : ℚ) *
        (50 / compFramerate)) ≤ ⌈(w1 - w0) * 50⌉) :
    calculateAllFramesSchedule w0 w1 compFramerate =
      (List.range ((jsRound ((w1 - w0) * compFramerate)).toNat + 1)).map
        (fun n => ((n, w0 + (n : ℚ) / compFramerate) : ℕ × ℚ)) := by
  have hr : 1 ≤ 50 / compFramerate := (one_le_div hF).mpr hF50
  have hE0 : 0 ≤ jsRound ((w1 - w0) * compFramerate) :=
    jsRound_nonneg (by positivity)
  have ht0 : 0 < ⌈(w1 - w0) * 50⌉ := Int.ceil_pos.mpr (by positivity)
  unfold calculateAllFramesSchedule SIMULATION_FPS
  simp only [List.range_eq_range']
  rw [simSampleStep_fold (jsRound ((w1 - w0) * compFramerate))
    (50 / compFramerate) w0 compFramerate hr
    ((⌈(w1 - w0) * 50⌉ + 1).toNat) 0 1 [(0, w0)] (by omega) (by omega) ?side]
  case side =>
    intro h1E
    constructor
    · refine jsRound_nonneg ?_
      have h1 : ((1 : ℕ) : ℚ) = 1 := by norm_num
      rw [h1, one_mul]
      linarith
    · omega
  · have hone : (jsRound ((w1 - w0) * compFramerate) + 1 - ((1 : ℕ) : ℤ)).toNat
        = (jsRound ((w1 - w0) * compFramerate)).toNat := by omega
    rw [hone, List.range'_succ, List.map_cons]
    simp

/-- Witness for C1 (amended): at 25 fps over a 0.2-second work area the
schedule is exactly the six snapshots of composition frames `0 … 5` at times
`n / 25`. -/
theorem calculateAllFramesSchedule_complete_witness :
    calculateAllFramesSchedule 0 (1 / 5) 25 =
      (List.range ((jsRound (((1 : ℚ) / 5 - 0) * 25)).toNat + 1)).map
        (fun n => ((n, 0 + (n : ℚ) / 25) : ℕ × ℚ)) :=
  calculateAllFramesSchedule_complete 0 (1 / 5) 25 (by norm_num)
    (by norm_num) (by norm_num) (by norm_num [jsRound])

theorem simplifyDPStep_subset (points : List Point) (sqTolerance : ℚ) :
    ∀ (fuel first last : ℕ), last < points.length →
    ∀ x ∈ simplifyDPStep points sqTolerance fuel first last, x ∈ points := by
  intro fuel
  induction fuel with
  | zero =>
    intro first last _ x hx
    simp [simplifyDPStep] at hx
  | succ fuel ih =>
    intro first last hlast x hx
    rw [simplifyDPStep] at hx
    cases hscan : dpScan points first last sqTolerance with
    | none => rw [hscan] at hx; simp at hx
    | some im =>
      obtain ⟨index, m⟩ := im
      obtain ⟨hi1, hi2⟩ := dpScan_bounds points first last sqTolerance index m
        hscan
      rw [hscan] at hx
      simp only [List.mem_append] at hx
      rcases hx with (hx | hx) | hx
      · split at hx
        · exact ih first index (by omega) x hx
        · simp at hx
      · rw [List.mem_singleton] at hx
        exact hx ▸ getD_mem_of_lt (by omega) _
      · split at hx
        · exact ih index last hlast x hx
        · simp at hx

theorem simplify_subset (points : List Point) (tolerance : ℚ) :
    ∀ x ∈ simplify points tolerance true, x ∈ points := by
  intro x hx
  unfold simplify at hx
  by_cases h2 : points.length ≤ 2
  · rw [if_pos h2] at hx; exact hx
  · rw [if_neg h2] at hx
    simp only [if_true] at hx
    unfold simplifyDouglasPeucker at hx
    simp only [List.mem_append, List.mem_singleton] at hx
    rcases hx with (hx | hx) | hx
    · exact hx ▸ getD_mem_of_lt (by omega) _
    · exact simplifyDPStep_subset points (tolerance * tolerance)
        points.length 0 (points.length - 1) (by omega) x hx
    · exact hx ▸ getD_mem_of_lt (by omega) _

theorem importantPoints_subset (resampled : List Point) :
    ∀ x ∈ importantPoints resampled, x ∈ resampled := by
  intro x hx
  unfold importantPoints at hx
  rw [List.mem_filterMap] at hx
  obtain ⟨i, hi, hfi⟩ := hx
  rw [List.mem_range] at hi
  dsimp only at hfi
  split at hfi
  · exact (Option.some.inj hfi) ▸ getD_mem_of_lt hi _
  · split at hfi
    · split at hfi
      · exact (Option.some.inj hfi) ▸ getD_mem_of_lt hi _
      · exact absurd hfi (by simp)
    · exact absurd hfi (by simp)

theorem reinsertImportant_subset (resampled simplified : List Point)
    (hs : ∀ x ∈ simplified, x ∈ resampled) :
    ∀ x ∈ reinsertImportant resampled simplified, x ∈ resampled := by
  intro x hx
  unfold reinsertImportant at hx
  dsimp only at hx
  split at hx
  · split at hx
    · have := mem_sortPointsBy hx
      rw [List.mem_append] at this
      rcases this with h | h
      · exact hs x h
      · exact importantPoints_subset resampled x (List.mem_filter.mp h).1
    · exact hs x hx
  · exact hs x hx

/-- The vertex list of the C7 counterexample: a pentagon tracing a bowtie
with a near-chord bump, no tangent handles. -/
def bowtieVerts : List Vertex :=
  [⟨(0, 0), none, none⟩, ⟨(0, 10), none, none⟩, ⟨(5, 7), none, none⟩,
   ⟨(10, 0), none, none⟩, ⟨(10, 679 / 64), none, none⟩]

/-- Counterexample to C7 as stated: on `bowtieVerts` at the default 15
samples per segment, the pre-simplification resampled path passes the
`0.1` area check (its area is about `7.48`), but the returned list — four
points, after simplification — has shoelace area about `0.0216 < 0.1`:
the area post-condition does not survive the simplification pass. -/
theorem resampleBezierPath_area_cex :
    resampleBezierPath bowtieVerts 15 ≠ [] ∧
    3 ≤ (resampleBezierPath bowtieVerts 15).length ∧
    calculateArea (resampleBezierPath bowtieVerts 15) < 1 / 10 := by
  refine ⟨by decide, by decide, by decide⟩

/-- C7 (amended): for every vertex list and sample density,
`resampleBezierPath` returns either the empty list, or a list of at least 3
points, each of which is one of the raw resampled points (hence finite, the
coordinates being rationals of finite inputs), where the raw resampled path
passed the `0.1` shoelace-area threshold.  The area bound itself is checked
before the simplification and important-point re-insertion passes and need
not hold of the returned list (forced by the counterexample). -/
theorem resampleBezierPath_post (vertices : List Vertex)
    (samplesPerSegment : ℕ) :
    resampleBezierPath vertices samplesPerSegment = [] ∨
    (3 ≤ (resampleBezierPath vertices samplesPerSegment).length ∧
     (∀ p ∈ resampleBezierPath vertices samplesPerSegment,
        p ∈ resampleRaw vertices samplesPerSegment) ∧
     1 / 10 ≤ calculateArea (resampleRaw vertices samplesPerSegment)) := by
  unfold resampleBezierPath
  by_cases h1 : vertices.length < 2
  · left; rw [if_pos h1]
  · rw [if_neg h1]
    by_cases h2 : (resampleRaw vertices samplesPerSegment).length < 3
    · left; rw [if_pos h2]
    · rw [if_neg h2]
      by_cases h3 :
          calculateArea (resampleRaw vertices samplesPerSegment) < 1 / 10
      · left; rw [if_pos h3]
      · rw [if_neg h3]
        right
        simp only
        by_cases h4 : (reinsertImportant (resampleRaw vertices samplesPerSegment)
            (simplify (resampleRaw vertices samplesPerSegment) 4
              true)).length < 3
        · rw [if_pos h4]
          exact ⟨by omega, fun p hp => hp, by linarith⟩
        · rw [if_neg h4]
          refine ⟨by omega, ?_, by linarith⟩
          intro p hp
          exact reinsertImportant_subset _ _
            (simplify_subset (resampleRaw vertices samplesPerSegment) 4) p hp

/-- Witness for C7 (amended), instantiating the post-condition on the
counterexample input itself: there the right disjunct holds. -/
theorem resampleBezierPath_post_witness :
    resampleBezierPath bowtieVerts 15 = [] ∨
    (3 ≤ (resampleBezierPath bowtieVerts 15).length ∧
     (∀ p ∈ resampleBezierPath bowtieVerts 15, p ∈ resampleRaw bowtieVerts 15) ∧
     1 / 10 ≤ calculateArea (resampleRaw bowtieVerts 15)) :=
  resampleBezierPath_post bowtieVerts 15

end ClaimTheorems

end Gravitae
